import Mathlib

/-!
# Verification of the HAR replay server and SAZ converter core

Shallow embedding of the replay matcher / archive indexer (src/server.ts) and
the raw-capture (SAZ) to archive (HAR) converter (src/saz-converter.ts),
with theorems settling the specification claims.

Bytes are modelled as `List Nat` (each value in [0,255]).  JavaScript string
primitives used by the source (split, trim, startsWith, percent decoding,
UTF-8 and base64 codecs) are modelled explicitly below.
-/

namespace HarReplay

/-- Raw bytes of a captured message. -/
abbrev Bytes := List Nat

/-- Bytes of an ASCII string (convenience for concrete captured messages). -/
def asciiBytes (s : String) : Bytes := s.data.map Char.toNat

/-! ## JavaScript string primitives -/

/-- JS `String.prototype.startsWith`. -/
def strStartsWith (s p : String) : Bool := p.data.isPrefixOf s.data

/-- JS `str.split(sep)` for a single-character separator, on character lists. -/
def charsSplitOn (sep : Char) : List Char → List (List Char)
  | [] => [[]]
  | c :: cs =>
    let rest := charsSplitOn sep cs
    if c == sep then [] :: rest
    else
      match rest with
      | [] => [[c]]
      | g :: gs => (c :: g) :: gs

/-- JS `str.split(sep)` for a single-character separator. -/
def strSplitOn (sep : Char) (s : String) : List String :=
  (charsSplitOn sep s.data).map String.mk

/-- JS `str.split(/\r\n|\n/)`: CRLF matched with priority over bare LF; a lone
CR is not a separator. -/
def splitLinesChars : List Char → List (List Char)
  | [] => [[]]
  | '\r' :: '\n' :: cs => [] :: splitLinesChars cs
  | '\n' :: cs => [] :: splitLinesChars cs
  | c :: cs =>
    match splitLinesChars cs with
    | [] => [[c]]
    | g :: gs => (c :: g) :: gs

/-- Whitespace for JS `trim` (ASCII part; the source only trims header
text): space, tab, LF, CR, vertical tab, form feed. -/
def isJsSpace (c : Char) : Bool :=
  [0x20, 0x09, 0x0A, 0x0D, 0x0B, 0x0C].contains c.toNat

/-- JS `str.trim()`. -/
def strTrim (s : String) : String :=
  String.mk (((s.data.dropWhile isJsSpace).reverse.dropWhile isJsSpace).reverse)

/-- JS `str.toLowerCase()` (ASCII range, as used on header names). -/
def strLower (s : String) : String := String.mk (s.data.map Char.toLower)

/-- Decimal digit value (codes 48-57). -/
def digitVal (c : Char) : Option Nat :=
  if 48 ≤ c.toNat && c.toNat ≤ 57 then some (c.toNat - 48) else none

/-- Leading run of decimal digits. -/
def takeDigits : List Char → List Nat × List Char
  | [] => ([], [])
  | c :: cs =>
    match digitVal c with
    | some d => let (ds, rest) := takeDigits cs; (d :: ds, rest)
    | none => ([], c :: cs)

def digitsToNat (ds : List Nat) : Nat := ds.foldl (fun a d => a * 10 + d) 0

/-- JS `parseInt(s)` for base 10: skip leading whitespace, optional sign,
then a leading digit run; no digits means NaN (`none`).  Trailing junk is
ignored.  (The hexadecimal `0x` form is not modelled; status codes are
decimal.) -/
def parseIntJs (s : String) : Option Int :=
  let cs := s.data.dropWhile isJsSpace
  let signed : Bool × List Char :=
    match cs with
    | '-' :: rest => (true, rest)
    | '+' :: rest => (false, rest)
    | rest => (false, rest)
  let (ds, _) := takeDigits signed.2
  if ds.isEmpty then none
  else
    let n : Int := Int.ofNat (digitsToNat ds)
    some (if signed.1 then -n else n)

/-- `Buffer.prototype.indexOf` for a byte pattern: index of the first
occurrence of `pat` in the buffer. -/
def findSubseq (pat : Bytes) : Bytes → Option Nat
  | [] => if pat.isEmpty then some 0 else none
  | b :: bs =>
    if pat.isPrefixOf (b :: bs) then some 0
    else (findSubseq pat bs).map (· + 1)

/-! ## UTF-8 and base64 codecs (Node `buffer.toString('utf-8' / 'base64')`) -/

def isUtf8Cont (b : Nat) : Bool := 0x80 ≤ b && b ≤ 0xBF

/-- One replacement character for an invalid byte sequence (Node substitutes
U+FFFD; the exact replacement count on truncated sequences is not observable
by any claim). -/
def replChar : Char := '�'

def utf8DecodeAux : Nat → Bytes → List Char
  | 0, _ => []
  | _ + 1, [] => []
  | fuel + 1, b :: bs =>
    if b < 0x80 then Char.ofNat b :: utf8DecodeAux fuel bs
    else if 0xC2 ≤ b && b ≤ 0xDF then
      match bs with
      | b2 :: bs2 =>
        if isUtf8Cont b2 then
          Char.ofNat ((b - 0xC0) * 64 + (b2 - 0x80)) :: utf8DecodeAux fuel bs2
        else replChar :: utf8DecodeAux fuel bs
      | [] => [replChar]
    else if 0xE0 ≤ b && b ≤ 0xEF then
      match bs with
      | b2 :: b3 :: bs3 =>
        let code := (b - 0xE0) * 4096 + (b2 - 0x80) * 64 + (b3 - 0x80)
        if isUtf8Cont b2 && isUtf8Cont b3 && 0x800 ≤ code &&
            !(0xD800 ≤ code && code ≤ 0xDFFF) then
          Char.ofNat code :: utf8DecodeAux fuel bs3
        else replChar :: utf8DecodeAux fuel bs
      | _ => [replChar]
    else if 0xF0 ≤ b && b ≤ 0xF4 then
      match bs with
      | b2 :: b3 :: b4 :: bs4 =>
        let code := (b - 0xF0) * 262144 + (b2 - 0x80) * 4096 +
          (b3 - 0x80) * 64 + (b4 - 0x80)
        if isUtf8Cont b2 && isUtf8Cont b3 && isUtf8Cont b4 &&
            0x10000 ≤ code && code ≤ 0x10FFFF then
          Char.ofNat code :: utf8DecodeAux fuel bs4
        else replChar :: utf8DecodeAux fuel bs
      | _ => [replChar]
    else replChar :: utf8DecodeAux fuel bs

/-- Node `buffer.toString('utf-8')`: decode with U+FFFD replacement. -/
def utf8Decode (bs : Bytes) : String := String.mk (utf8DecodeAux (bs.length + 1) bs)

/-- UTF-8 encoding of one scalar value. -/
def utf8EncodeChar (c : Char) : Bytes :=
  let n := c.toNat
  if n < 0x80 then [n]
  else if n < 0x800 then [0xC0 + n / 64, 0x80 + n % 64]
  else if n < 0x10000 then
    [0xE0 + n / 4096, 0x80 + (n / 64) % 64, 0x80 + n % 64]
  else
    [0xF0 + n / 262144, 0x80 + (n / 4096) % 64, 0x80 + (n / 64) % 64, 0x80 + n % 64]

def utf8Encode (s : String) : Bytes := (s.data.map utf8EncodeChar).flatten

def base64Alphabet : List Char :=
  "ABCDEFGHIJKLMNOPQRSTUVWXYZabcdefghijklmnopqrstuvwxyz0123456789+/".data

def b64c (n : Nat) : Char := base64Alphabet.getD n 'A'

def base64Aux : Bytes → List Char
  | [] => []
  | [a] => [b64c (a / 4), b64c (a % 4 * 16), '=', '=']
  | [a, b] => [b64c (a / 4), b64c (a % 4 * 16 + b / 16), b64c (b % 16 * 4), '=']
  | a :: b :: c :: rest =>
    b64c (a / 4) :: b64c (a % 4 * 16 + b / 16) :: b64c (b % 16 * 4 + c / 64) ::
      b64c (c % 64) :: base64Aux rest

/-- Node `buffer.toString('base64')`. -/
def base64Encode (bs : Bytes) : String := String.mk (base64Aux bs)

/-! ## Percent decoding -/

/-- Hexadecimal digit value of a code unit: decimal digits are 48-57,
lowercase a-f are 97-102, uppercase A-F are 65-70. -/
def hexUnitVal (u : Nat) : Option Nat :=
  if 48 ≤ u && u ≤ 57 then some (u - 48)
  else if 97 ≤ u && u ≤ 102 then some (u - 87)
  else if 65 ≤ u && u ≤ 70 then some (u - 55)
  else none

/-- Hexadecimal digit value of a character. -/
def hexVal (c : Char) : Option Nat := hexUnitVal c.toNat

/-- Read one `%HH` escape. -/
def readEscByte : List Char → Option (Nat × List Char)
  | '%' :: h1 :: h2 :: rest => do
    let a ← hexVal h1
    let b ← hexVal h2
    some (a * 16 + b, rest)
  | _ => none

/-- Length of a UTF-8 sequence from its lead byte; `none` for an invalid
lead byte. -/
def utf8SeqLen (b : Nat) : Option Nat :=
  if b < 0x80 then some 1
  else if 0xC2 ≤ b && b ≤ 0xDF then some 2
  else if 0xE0 ≤ b && b ≤ 0xEF then some 3
  else if 0xF0 ≤ b && b ≤ 0xF4 then some 4
  else none

/-- Read `n` continuation bytes, each of which must itself be a `%HH` escape
with a continuation value. -/
def readContEscBytes : Nat → List Char → Option (List Nat × List Char)
  | 0, cs => some ([], cs)
  | n + 1, cs => do
    let (b, rest) ← readEscByte cs
    if isUtf8Cont b then
      let (bs, rest2) ← readContEscBytes n rest
      some (b :: bs, rest2)
    else none

/-- Strict decoding of one multi-byte UTF-8 sequence (lead byte plus
continuations); rejects overlong encodings and surrogates, as
`decodeURIComponent` does. -/
def decodeMultiByte (b : Nat) (conts : List Nat) : Option Char :=
  match conts with
  | [b2] =>
    let code := (b - 0xC0) * 64 + (b2 - 0x80)
    if 0x80 ≤ code then some (Char.ofNat code) else none
  | [b2, b3] =>
    let code := (b - 0xE0) * 4096 + (b2 - 0x80) * 64 + (b3 - 0x80)
    if 0x800 ≤ code && !(0xD800 ≤ code && code ≤ 0xDFFF) then
      some (Char.ofNat code)
    else none
  | [b2, b3, b4] =>
    let code := (b - 0xF0) * 262144 + (b2 - 0x80) * 4096 +
      (b3 - 0x80) * 64 + (b4 - 0x80)
    if 0x10000 ≤ code && code ≤ 0x10FFFF then some (Char.ofNat code) else none
  | _ => none

/-- JS `decodeURIComponent`: `Except.error ()` models a thrown `URIError`.
Characters other than `%` pass through; a `%` must begin a valid escape, and
a non-ASCII escaped byte must be followed by escaped continuation bytes
forming a valid UTF-8 sequence. -/
def decodeURIAux : Nat → List Char → Except Unit (List Char)
  | 0, _ => .error ()
  | _ + 1, [] => .ok []
  | fuel + 1, '%' :: rest =>
    match readEscByte ('%' :: rest) with
    | none => .error ()
    | some (b, rest2) =>
      if b < 0x80 then (decodeURIAux fuel rest2).map (Char.ofNat b :: ·)
      else
        match utf8SeqLen b with
        | none => .error ()
        | some n =>
          match readContEscBytes (n - 1) rest2 with
          | none => .error ()
          | some (conts, rest3) =>
            match decodeMultiByte b conts with
            | none => .error ()
            | some c => (decodeURIAux fuel rest3).map (c :: ·)
  | fuel + 1, c :: rest => (decodeURIAux fuel rest).map (c :: ·)

def decodeURIComponentE (s : String) : Except Unit String :=
  (decodeURIAux (s.data.length + 1) s.data).map String.mk

/-! ## `URLSearchParams` (WHATWG form-urlencoded parse / serialize / sort) -/

/-- Lenient percent decoding used by `URLSearchParams`: `+` becomes a space,
a valid `%HH` escape becomes that byte, anything else passes through as its
UTF-8 bytes (an invalid escape stays literal, never throws). -/
def formDecodeTokenBytes : Nat → List Char → Bytes
  | 0, _ => []
  | _ + 1, [] => []
  | fuel + 1, '+' :: rest => 0x20 :: formDecodeTokenBytes fuel rest
  | fuel + 1, '%' :: rest =>
    match readEscByte ('%' :: rest) with
    | some (b, rest2) => b :: formDecodeTokenBytes fuel rest2
    | none => utf8EncodeChar '%' ++ formDecodeTokenBytes fuel rest
  | fuel + 1, c :: rest => utf8EncodeChar c ++ formDecodeTokenBytes fuel rest

def formDecodeToken (cs : List Char) : String :=
  utf8Decode (formDecodeTokenBytes (cs.length + 1) cs)

/-- Split a sequence at its first `=`; with no `=` the value is empty. -/
def splitFirstEq : List Char → List Char × List Char
  | [] => ([], [])
  | '=' :: rest => ([], rest)
  | c :: rest => let (n, v) := splitFirstEq rest; (c :: n, v)

/-- `new URLSearchParams(s)`: split on `&`, skip empty sequences, split each
at the first `=`, decode both sides. -/
def parseUSP (s : String) : List (String × String) :=
  (charsSplitOn '&' s.data).filterMap fun seg =>
    if seg.isEmpty then none
    else
      let (n, v) := splitFirstEq seg
      some (formDecodeToken n, formDecodeToken v)

/-- Bytes left verbatim by the form-urlencoded serializer. -/
def formSafeByte (b : Nat) : Bool :=
  (0x30 ≤ b && b ≤ 0x39) || (0x41 ≤ b && b ≤ 0x5A) || (0x61 ≤ b && b ≤ 0x7A) ||
    b == 0x2A || b == 0x2D || b == 0x2E || b == 0x5F

def hexDigitUpper (n : Nat) : Char :=
  "0123456789ABCDEF".data.getD n '0'

def formEncodeByte (b : Nat) : List Char :=
  if b == 0x20 then ['+']
  else if formSafeByte b then [Char.ofNat b]
  else ['%', hexDigitUpper (b / 16), hexDigitUpper (b % 16)]

def formEncodeStr (s : String) : List Char :=
  ((utf8Encode s).map formEncodeByte).flatten

/-- `URLSearchParams.prototype.toString`. -/
def serializeForm (ps : List (String × String)) : String :=
  String.intercalate "&"
    (ps.map fun p => String.mk (formEncodeStr p.1 ++ '=' :: formEncodeStr p.2))

/-- Lexicographic comparison of character lists by code point (JS string
comparison on the names being sorted). -/
def charListLe (xs ys : List Char) : Bool :=
  match xs, ys with
  | a :: as, b :: bs =>
    if a.toNat = b.toNat then charListLe as bs else a.toNat < b.toNat
  | xs2, _ => xs2.isEmpty

/-- Stable insertion: an element goes after every existing element that is
`le` it, so equal names keep their original relative order, as
`URLSearchParams.prototype.sort` guarantees. -/
def insertByName (x : String × String) : List (String × String) → List (String × String)
  | [] => [x]
  | y :: ys =>
    if charListLe y.1.data x.1.data then y :: insertByName x ys
    else x :: y :: ys

/-- `URLSearchParams.prototype.sort`: stable sort by name. -/
def sortPairs (ps : List (String × String)) : List (String × String) :=
  ps.foldl (fun acc p => insertByName p acc) []

/-! ## `new URL(input, 'http://dummy.base')`: pathname and query extraction

Models the WHATWG URL parser for the inputs the server feeds it: the
fragment is cut first; an absolute `http(s)` URL drops scheme and authority;
a remaining path-absolute or relative reference is resolved against the base
path `/`.  Path normalization of `.`/`..` segments and percent re-encoding
of exotic code points are outside the behaviors any claim exercises. -/

def splitPathQuery (cs : List Char) : String × String :=
  let path := cs.takeWhile (· != '?')
  let rest := cs.drop path.length
  let query := match rest with
    | '?' :: q => q
    | _ => []
  (if path.isEmpty then "/" else String.mk path, String.mk query)

def urlSplitPQ (s : String) : String × String :=
  let cs := s.data.takeWhile (· != '#')
  if strStartsWith (String.mk cs) "http://" || strStartsWith (String.mk cs) "https://" then
    let afterScheme :=
      if strStartsWith (String.mk cs) "http://" then cs.drop 7 else cs.drop 8
    let auth := afterScheme.takeWhile fun c => c != '/' && c != '?'
    splitPathQuery (afterScheme.drop auth.length)
  else
    match cs with
    | '/' :: _ => splitPathQuery cs
    | _ => splitPathQuery ('/' :: cs)

/-- `new URL(s, 'http://dummy.base').pathname`. -/
def urlPathname (s : String) : String := (urlSplitPQ s).1

/-- The query string (without `?`) of `new URL(s, 'http://dummy.base')`. -/
def urlQuery (s : String) : String := (urlSplitPQ s).2

/-! ## JSON values, `JSON.parse`, and `assert.deepEqual`

`JSON.parse` produces JS values: numbers are IEEE-754 binary64 doubles
(each decimal literal is rounded to the nearest double, ties to even),
strings are sequences of UTF-16 code units (a lone escaped surrogate is a
legal unit), and an object keeps the last of duplicate keys, so parsed
objects never hold duplicate keys.  `assert.deepEqual` is Node's legacy
loose deep comparison: primitives compare with loose `==` (coercing
through `ToNumber`), arrays pointwise, objects by key set and values
disregarding key order. -/

/-- A JS number as `JSON.parse` produces it: a finite binary64 value stored
as the exact rational sig · 2^exp with sig odd (or sig = 0 and exp = 0), or
an infinity from an overflowing literal.  Two doubles are equal exactly
when their canonical representations are equal; negative zero is identified
with zero, as loose comparison does, and `JSON.parse` cannot produce
NaN. -/
inductive JsNum where
  | finite (sig : Int) (exp : Int) : JsNum
  | inf (neg : Bool) : JsNum
deriving DecidableEq, Repr

/-- Number of decimal digits, by fuel so the kernel can evaluate it. -/
def digitCountAux : Nat → Nat → Nat
  | 0, _ => 1
  | fuel + 1, n => if n < 10 then 1 else digitCountAux fuel (n / 10) + 1

def numDigits (n : Nat) : Nat := digitCountAux n n

/-- Floor of the base-two logarithm (0 at 0), by fuel. -/
def log2Aux : Nat → Nat → Nat
  | 0, _ => 0
  | fuel + 1, n => if n ≤ 1 then 0 else log2Aux fuel (n / 2) + 1

def natLog2 (n : Nat) : Nat := log2Aux n n

/-- Round num / den to the nearest integer, ties to even. -/
def divRoundEven (num den : Nat) : Nat :=
  let s := num / den
  let r := num % den
  if den < 2 * r then s + 1
  else if 2 * r < den then s
  else if s % 2 == 0 then s else s + 1

/-- Does 2^g ≤ p / q hold (g possibly negative)? -/
def le2exp (q p : Nat) (g : Int) : Bool :=
  if 0 ≤ g then q * 2 ^ g.toNat ≤ p else q ≤ p * 2 ^ (-g).toNat

/-- Strip factors of two from a significand, canonicalizing the
representation. -/
def stripTwosAux : Nat → Nat → Int → Nat × Int
  | 0, s, k => (s, k)
  | fuel + 1, s, k =>
    if s != 0 && s % 2 == 0 then stripTwosAux fuel (s / 2) (k + 1) else (s, k)

def mkFinite (neg : Bool) (s : Nat) (k : Int) : JsNum :=
  if s == 0 then .finite 0 0
  else
    let (s2, k2) := stripTwosAux s s k
    .finite (if neg then -(Int.ofNat s2) else Int.ofNat s2) k2

/-- Round the positive rational p / q (p, q ≥ 1) to the nearest binary64
(round to nearest, ties to even), overflowing to infinity and underflowing
through the subnormal range (scale 2^(-1074)) to zero.  The floor of
log2 (p / q) is `natLog2 p - natLog2 q` or one less, decided by one
comparison; a normal double has 53 significand bits, exponent at most
1023. -/
def roundRat (neg : Bool) (p q : Nat) : JsNum :=
  let g0 : Int := Int.ofNat (natLog2 p) - Int.ofNat (natLog2 q)
  let n : Int := if le2exp q p g0 then g0 else g0 - 1
  if n < -1022 then
    mkFinite neg (divRoundEven (p * 2 ^ 1074) q) (-1074)
  else if 1023 < n then .inf neg
  else
    let sh : Int := n - 52
    let s :=
      if 0 ≤ sh then divRoundEven p (q * 2 ^ sh.toNat)
      else divRoundEven (p * 2 ^ (-sh).toNat) q
    if s == 2 ^ 53 then
      if n == 1023 then .inf neg else mkFinite neg (2 ^ 52) (n - 51)
    else mkFinite neg s sh

/-- The binary64 double of the decimal m · 10^e, as `JSON.parse` and
`ToNumber` produce it.  The exponent guards (a value of at least 10^319 is
past the largest double, one below 10^(-340) is below half the smallest
subnormal) also keep astronomic literals from materializing huge powers. -/
def roundDec (m : Int) (e : Int) : JsNum :=
  if m == 0 then .finite 0 0
  else
    let neg := m < 0
    let a := m.natAbs
    let digits : Int := Int.ofNat (numDigits a)
    if 320 < e + digits then .inf neg
    else if e + digits < -340 then .finite 0 0
    else if 0 ≤ e then roundRat neg (a * 10 ^ e.toNat) 1
    else roundRat neg a (10 ^ (-e).toNat)

/-- UTF-16 code units of one character (an astral scalar is a surrogate
pair). -/
def utf16Units (c : Char) : List Nat :=
  let n := c.toNat
  if n < 0x10000 then [n]
  else [0xD800 + (n - 0x10000) / 1024, 0xDC00 + (n - 0x10000) % 1024]

mutual
inductive Json where
  | null : Json
  | bool (b : Bool) : Json
  | num (v : JsNum) : Json
  | str (units : List Nat) : Json
  | arr (elems : JArr) : Json
  | obj (fields : JObj) : Json
inductive JArr where
  | nil : JArr
  | cons (hd : Json) (tl : JArr) : JArr
inductive JObj where
  | nil : JObj
  | cons (key : List Nat) (val : Json) (tl : JObj) : JObj
end

def jobjFind (k : List Nat) : JObj → Option Json
  | .nil => none
  | .cons k2 v tl => if k == k2 then some v else jobjFind k tl

def jobjLen : JObj → Nat
  | .nil => 0
  | .cons _ _ tl => jobjLen tl + 1

/-! ### `ToNumber` on strings, and loose `==` on JS primitives -/

/-- Whitespace trimmed by `ToNumber` on a string: the JS whitespace and
line-terminator code units. -/
def isToNumWs (u : Nat) : Bool :=
  [9, 10, 11, 12, 13, 32, 0xA0, 0x1680, 0x2028, 0x2029, 0x202F, 0x205F,
    0x3000, 0xFEFF].contains u || (0x2000 ≤ u && u ≤ 0x200A)

def unitDigit (u : Nat) : Option Nat :=
  if 48 ≤ u && u ≤ 57 then some (u - 48) else none

def takeUnitDigits : List Nat → List Nat × List Nat
  | [] => ([], [])
  | u :: us =>
    match unitDigit u with
    | some d => let (ds, r) := takeUnitDigits us; (d :: ds, r)
    | none => ([], u :: us)

def radixUnitVal (radix u : Nat) : Option Nat :=
  (hexUnitVal u).bind fun v => if v < radix then some v else none

/-- Value of a nonempty digit string in the given radix; `none` on any
non-digit or on emptiness (NaN). -/
def radixFold (radix : Nat) (us : List Nat) : Option Nat :=
  if us.isEmpty then none
  else
    us.foldl
      (fun acc u => acc.bind fun a => (radixUnitVal radix u).map fun d => a * radix + d)
      (some 0)

/-- The exponent tail of a `ToNumber` decimal: either nothing, or e/E, an
optional sign and at least one digit, consuming the whole rest. -/
def parseExpUnits : List Nat → Option Int
  | [] => some 0
  | u :: r =>
    if u == 101 || u == 69 then
      let (sgn, r2) :=
        match r with
        | 43 :: r3 => (false, r3)
        | 45 :: r3 => (true, r3)
        | r3 => (false, r3)
      let (ds, r4) := takeUnitDigits r2
      if ds.isEmpty || !r4.isEmpty then none
      else some (if sgn then -(Int.ofNat (digitsToNat ds)) else Int.ofNat (digitsToNat ds))
    else none

/-- A signed `ToNumber` decimal: optional sign, then Infinity or digits
with an optional dot (at least one digit overall, so forms like 1. and .5
are accepted) and an optional exponent. -/
def toNumberDec (us : List Nat) : Option JsNum :=
  let (neg, us1) :=
    match us with
    | 43 :: r => (false, r)
    | 45 :: r => (true, r)
    | r => (false, r)
  if us1 == [73, 110, 102, 105, 110, 105, 116, 121] then some (.inf neg)
  else
    let (intDs, us2) := takeUnitDigits us1
    let (fracDs, us3) :=
      match us2 with
      | 46 :: r => takeUnitDigits r
      | r => ([], r)
    if intDs.isEmpty && fracDs.isEmpty then none
    else
      match parseExpUnits us3 with
      | none => none
      | some expVal =>
        let mAbs : Int := Int.ofNat (digitsToNat (intDs ++ fracDs))
        some (roundDec (if neg then -mAbs else mAbs) (expVal - Int.ofNat fracDs.length))

/-- ECMA `ToNumber` of a string given as UTF-16 units; `none` is NaN.  The
empty (trimmed) string is zero; 0x, 0o and 0b radix literals are unsigned;
anything else is a signed decimal or Infinity. -/
def toNumberUnits (us0 : List Nat) : Option JsNum :=
  let us := ((us0.dropWhile isToNumWs).reverse.dropWhile isToNumWs).reverse
  match us with
  | [] => some (.finite 0 0)
  | 48 :: x :: rest =>
    if x == 120 || x == 88 then (radixFold 16 rest).map fun v => roundDec (Int.ofNat v) 0
    else if x == 111 || x == 79 then (radixFold 8 rest).map fun v => roundDec (Int.ofNat v) 0
    else if x == 98 || x == 66 then (radixFold 2 rest).map fun v => roundDec (Int.ofNat v) 0
    else toNumberDec us
  | _ => toNumberDec us

def boolNum (b : Bool) : JsNum := .finite (if b then 1 else 0) 0

def numEqOpt (a : JsNum) : Option JsNum → Bool
  | some b => a == b
  | none => false

/-- Loose `==` between JS primitives (the leaves of parsed JSON): null
equals only null (undefined cannot arise from `JSON.parse`); like types
compare strictly — strings by code units, numbers as doubles; a number and
a string compare after `ToNumber` on the string; a boolean coerces to 0 or
1 first.  NaN from a failed coercion equals nothing. -/
def looseLeafEq : Json → Json → Bool
  | .null, .null => true
  | .bool a, .bool b => a == b
  | .num a, .num b => a == b
  | .str a, .str b => a == b
  | .num a, .str s => numEqOpt a (toNumberUnits s)
  | .str s, .num b => numEqOpt b (toNumberUnits s)
  | .bool a, .num b => boolNum a == b
  | .num a, .bool b => a == boolNum b
  | .bool a, .str s => numEqOpt (boolNum a) (toNumberUnits s)
  | .str s, .bool b => numEqOpt (boolNum b) (toNumberUnits s)
  | _, _ => false

mutual
/-- Node's legacy `assert.deepEqual` on JSON-parse results: a composite
never equals a primitive and an array never equals a plain object (their
object tags differ); arrays compare pointwise; objects compare by key
count plus every key of the left object present in the right with a
deep-equal value, so key order is disregarded; primitive pairs use loose
`==` with its `ToNumber` coercion.  Numbers are binary64 values, so
literals that round to the same double compare equal. -/
def jsonEq : Json → Json → Bool
  | .arr a, .arr b => jarrEq a b
  | .obj a, .obj b => jobjLen a == jobjLen b && jobjSub a b
  | .arr _, _ => false
  | _, .arr _ => false
  | .obj _, _ => false
  | _, .obj _ => false
  | a, b => looseLeafEq a b
def jarrEq : JArr → JArr → Bool
  | .nil, .nil => true
  | .cons a as, .cons b bs => jsonEq a b && jarrEq as bs
  | _, _ => false
def jobjSub : JObj → JObj → Bool
  | .nil, _ => true
  | .cons k v tl, b =>
    (match jobjFind k b with
     | some w => jsonEq v w
     | none => false) && jobjSub tl b
end

/-- Insert a parsed field: a duplicate key keeps its first position but
takes the later value, as `JSON.parse` does. -/
def jobjUpsert (k : List Nat) (v : Json) : JObj → JObj
  | .nil => .cons k v .nil
  | .cons k2 v2 tl =>
    if k == k2 then .cons k2 v tl else .cons k2 v2 (jobjUpsert k v tl)

/-- JSON whitespace. -/
def isJsonWs (c : Char) : Bool := [0x20, 0x09, 0x0A, 0x0D].contains c.toNat

def skipWs (cs : List Char) : List Char := cs.dropWhile isJsonWs

/-- Strict JSON number grammar: optional minus, integer part without leading
zeros, optional fraction (`.` requiring at least one digit), optional
exponent.  A `.` or `e` not followed by a digit can never occur after a
number in valid JSON text, so it is rejected outright. -/
def parseJNumber (cs0 : List Char) : Option (Json × List Char) :=
  let (neg, cs1) :=
    match cs0 with
    | '-' :: rest => (true, rest)
    | rest => (false, rest)
  let (intDs, cs2) := takeDigits cs1
  if intDs.isEmpty then none
  else if intDs.length > 1 && intDs.headD 0 == 0 then none
  else
    let fracStep : Option (List Nat × List Char) :=
      match cs2 with
      | '.' :: rest =>
        let (ds, r) := takeDigits rest
        if ds.isEmpty then none else some (ds, r)
      | rest => some ([], rest)
    match fracStep with
    | none => none
    | some (fracDs, cs3) =>
      let expStep : Option (Int × List Char) :=
        match cs3 with
        | 'e' :: rest | 'E' :: rest =>
          let (sgn, rest2) :=
            match rest with
            | '-' :: r => (true, r)
            | '+' :: r => (false, r)
            | r => (false, r)
          let (ds, r3) := takeDigits rest2
          if ds.isEmpty then none
          else
            some ((if sgn then -(Int.ofNat (digitsToNat ds))
                   else Int.ofNat (digitsToNat ds)), r3)
        | rest => some (0, rest)
      match expStep with
      | none => none
      | some (expVal, cs4) =>
        let mAbs : Int := Int.ofNat (digitsToNat (intDs ++ fracDs))
        let m : Int := if neg then -mAbs else mAbs
        let e : Int := expVal - Int.ofNat fracDs.length
        some (.num (roundDec m e), cs4)

def hex4Val (a b c d : Char) : Option Nat := do
  let x1 ← hexVal a
  let x2 ← hexVal b
  let x3 ← hexVal c
  let x4 ← hexVal d
  some (x1 * 4096 + x2 * 256 + x3 * 16 + x4)

/-- The code unit contributed by a one-character escape, when legal. -/
def escUnit (e : Char) : Option Nat :=
  if e == '"' then some 34
  else if e == '\\' then some 92
  else if e == '/' then some 47
  else if e == 'b' then some 8
  else if e == 'f' then some 12
  else if e == 'n' then some 10
  else if e == 'r' then some 13
  else if e == 't' then some 9
  else none

/-- JSON string body after the opening quote, as the UTF-16 code units of
the resulting JS string: a literal astral character contributes its
surrogate pair, and each `\uXXXX` escape contributes exactly its unit (a
lone surrogate is a legal JS string element). -/
def parseJString : Nat → List Char → Option (List Nat × List Char)
  | 0, _ => none
  | _ + 1, [] => none
  | fuel + 1, c :: rest =>
    if c == '"' then some ([], rest)
    else if c == '\\' then
      match rest with
      | 'u' :: h1 :: h2 :: h3 :: h4 :: r =>
        match hex4Val h1 h2 h3 h4 with
        | some code => (parseJString fuel r).map (fun (s, r2) => (code :: s, r2))
        | none => none
      | e :: r =>
        match escUnit e with
        | some u => (parseJString fuel r).map (fun (s, r2) => (u :: s, r2))
        | none => none
      | [] => none
    else if c.toNat < 0x20 then none
    else (parseJString fuel rest).map (fun (s, r2) => (utf16Units c ++ s, r2))

mutual
/-- `JSON.parse` value grammar, by fuel (`2·length + 2` at top level covers
every recursion, each pair of nested calls consuming at least one
character). -/
def parseJValue : Nat → List Char → Option (Json × List Char)
  | 0, _ => none
  | fuel + 1, cs0 =>
    match skipWs cs0 with
    | 'n' :: 'u' :: 'l' :: 'l' :: rest => some (.null, rest)
    | 't' :: 'r' :: 'u' :: 'e' :: rest => some (.bool true, rest)
    | 'f' :: 'a' :: 'l' :: 's' :: 'e' :: rest => some (.bool false, rest)
    | '"' :: rest => (parseJString (rest.length + 1) rest).map
        (fun (s, r) => (.str s, r))
    | '[' :: rest =>
      (match skipWs rest with
       | ']' :: r => some (.arr .nil, r)
       | _ => (parseJArrElems fuel rest).map (fun (a, r) => (.arr a, r)))
    | '\x7b' :: rest =>
      (match skipWs rest with
       | '\x7d' :: r => some (.obj .nil, r)
       | _ => (parseJObjFields fuel rest .nil).map (fun (o, r) => (.obj o, r)))
    | cs => parseJNumber cs

def parseJArrElems : Nat → List Char → Option (JArr × List Char)
  | 0, _ => none
  | fuel + 1, cs => do
    let (v, r) ← parseJValue fuel cs
    match skipWs r with
    | ',' :: r2 =>
      let (tl, r3) ← parseJArrElems fuel r2
      some (.cons v tl, r3)
    | ']' :: r2 => some (.cons v .nil, r2)
    | _ => none

def parseJObjFields : Nat → List Char → JObj → Option (JObj × List Char)
  | 0, _, _ => none
  | fuel + 1, cs, acc =>
    match skipWs cs with
    | '"' :: r => do
      let (k, r2) ← parseJString (r.length + 1) r
      match skipWs r2 with
      | ':' :: r3 => do
        let (v, r4) ← parseJValue fuel r3
        let acc2 := jobjUpsert k v acc
        match skipWs r4 with
        | ',' :: r5 => parseJObjFields fuel r5 acc2
        | '\x7d' :: r5 => some (acc2, r5)
        | _ => none
      | _ => none
    | _ => none
end

/-- `JSON.parse`: parse one value and require only whitespace after it. -/
def jsonParse (s : String) : Option Json :=
  match parseJValue (2 * s.data.length + 2) s.data with
  | some (v, rest) => if (skipWs rest).isEmpty then some v else none
  | none => none

/-- JS `str.toUpperCase()` (ASCII range, as used on methods). -/
def strUpper (s : String) : String := String.mk (s.data.map Char.toUpper)

/-! ## Replay server (src/server.ts): data model, matcher, indexer -/

namespace Srv

/-- `HarPostData` of the server (`mimeType`, optional `text`). -/
structure HarPostData where
  mimeType : String
  text : Option String := none
deriving DecidableEq, Repr

/-- `HarRequest` as found in a parsed HAR document.  The TS interface
declares `method`/`url` as present, but the JSON data behind a malformed
entry may lack either; absence is modelled with `Option`. -/
structure HarRequest where
  method : Option String := none
  url : Option String := none
  postData : Option HarPostData := none
deriving DecidableEq, Repr

structure HarHeader where
  name : String
  value : String
deriving DecidableEq, Repr

structure HarContent where
  text : Option String := none
  encoding : Option String := none
  mimeType : String := ""
deriving DecidableEq, Repr

structure HarResponse where
  status : Nat := 200
  statusText : String := ""
  headers : List HarHeader := []
  content : HarContent := {}
deriving DecidableEq, Repr

structure HarEntry where
  request : Option HarRequest := none
  response : Option HarResponse := none
deriving DecidableEq, Repr

/-- Per-endpoint candidate list plus replay cursor (`ReplayState`). -/
structure ReplayState where
  entries : List HarEntry := []
  currentIndex : Nat := 0
deriving DecidableEq, Repr

/-- `HarReplayServer.compareURLSearchParams`: sort both parameter lists by
name and compare their serializations. -/
def compareURLSearchParams (p1 p2 : List (String × String)) : Bool :=
  serializeForm (sortPairs p1) == serializeForm (sortPairs p2)

/-- `HarReplayServer.compareQueryParams`. -/
def compareQueryParams (reqUrl harUrlStr : String) : Bool :=
  compareURLSearchParams (parseUSP (urlQuery reqUrl)) (parseUSP (urlQuery harUrlStr))

/-- `reqBody || '\x7b\x7d'`: an empty body string is substituted by the
empty-object text before `JSON.parse`. -/
def substEmpty (s : String) : String := if s == "" then "\x7b\x7d" else s

/-- `HarReplayServer.compareBody`.  The `try / catch` around
`deepEqual(JSON.parse(..), JSON.parse(..))` returns `false` whenever either
parse throws or the values are not deep-equal. -/
def compareBody (reqBody : String) (harPostData : Option HarPostData) : Bool :=
  match harPostData with
  | none => reqBody == ""
  | some pd =>
    match pd.text with
    | none => reqBody == ""
    | some harBody =>
      let harMimeType := strTrim ((strSplitOn ';' pd.mimeType).headD "")
      if harMimeType == "application/json" then
        match jsonParse (substEmpty reqBody), jsonParse (substEmpty harBody) with
        | some a, some b => jsonEq a b
        | _, _ => false
      else if harMimeType == "application/x-www-form-urlencoded" then
        compareURLSearchParams (parseUSP reqBody) (parseUSP harBody)
      else reqBody == harBody

def methodsWithBody : List String := ["POST", "PUT", "PATCH", "DELETE"]

/-- An incoming request at the matcher boundary: normalized method, the raw
request URL, and the fully-read body (empty for body-less methods). -/
structure Request where
  method : String
  url : String
  body : String
deriving DecidableEq, Repr

/-- The attribute-match predicate applied to one candidate inside
`_replayRequest`.  Indexed entries always carry a request with a nonempty
URL (load-time validation); the defaults for absent fields are unreachable
on indexer-produced states. -/
def entryMatches (r : Request) (e : HarEntry) : Bool :=
  let req := e.request.getD {}
  if methodsWithBody.contains r.method then compareBody r.body req.postData
  else compareQueryParams r.url (req.url.getD "")

/-- First candidate in list order satisfying the match predicate. -/
def priorityMatch (r : Request) (entries : List HarEntry) : Option HarEntry :=
  entries.find? (entryMatches r)

/-- Core of `_replayRequest` once the endpoint's `ReplayState` is resolved:
attribute match wins and leaves the state untouched; otherwise the entry at
the cursor is served and the cursor advances by one modulo the list
length. -/
def replayStep (r : Request) (s : ReplayState) : Option HarEntry × ReplayState :=
  if s.entries.isEmpty then (none, s)
  else
    match priorityMatch r s.entries with
    | some e => (some e, s)
    | none =>
      (s.entries[s.currentIndex]?,
       { s with currentIndex := (s.currentIndex + 1) % s.entries.length })

/-- Run a sequence of requests against one endpoint, collecting the served
entries. -/
def runRequests : List Request → ReplayState → List (Option HarEntry) × ReplayState
  | [], s => ([], s)
  | r :: rs, s =>
    let (o, s1) := replayStep r s
    let (os, s2) := runRequests rs s1
    (o :: os, s2)

/-- `harDataMap`: method → path → ReplayState, as insertion-ordered
association lists (JS `Map`). -/
abbrev PathMap := List (String × ReplayState)
abbrev Index := List (String × PathMap)

def alGet {α : Type} (m : List (String × α)) (k : String) : Option α :=
  (m.find? fun p => p.1 == k).map (·.2)

/-- JS `Map.set`: overwrite in place, else append. -/
def alSet {α : Type} (m : List (String × α)) (k : String) (v : α) : List (String × α) :=
  match m with
  | [] => [(k, v)]
  | (k2, v2) :: rest =>
    if k == k2 then (k2, v) :: rest else (k2, v2) :: alSet rest k v

/-- Appending one validated entry to the index
(`_processSingleHarFile` loop body). -/
def indexAdd (idx : Index) (method urlPath : String) (e : HarEntry) : Index :=
  let pathMap := (alGet idx method).getD []
  let state := (alGet pathMap urlPath).getD {}
  alSet idx method
    (alSet pathMap urlPath { state with entries := state.entries ++ [e] })

/-- The entry loop of `_processSingleHarFile`.  An entry with a falsy
`request.url` or missing `response` is skipped (`continue`); an entry that
passes that check but lacks `request.method` makes
`entry.request.method.toUpperCase()` throw, which the surrounding
`try/catch` turns into abandoning the rest of this document while keeping
everything already added. -/
def processEntriesAux : Index → List HarEntry → Index
  | idx, [] => idx
  | idx, e :: rest =>
    match e.request with
    | none => processEntriesAux idx rest
    | some req =>
      match req.url with
      | none => processEntriesAux idx rest
      | some u =>
        if u == "" then processEntriesAux idx rest
        else
          match e.response with
          | none => processEntriesAux idx rest
          | some _ =>
            match req.method with
            | none => idx
            | some m =>
              processEntriesAux (indexAdd idx (strUpper m) (urlPathname u) e) rest

/-- `_processSingleHarFile`: `none` models a document whose text fails
`JSON.parse` or that lacks `log`/`log.entries` — the document is skipped and
the index is unchanged. -/
def processSingleHarFile (idx : Index) (doc : Option (List HarEntry)) : Index :=
  match doc with
  | none => idx
  | some entries => processEntriesAux idx entries

/-- The index produced by loading a document list into an empty map. -/
def buildIndex (docs : List (Option (List HarEntry))) : Index :=
  docs.foldl processSingleHarFile []

/-- The sequence of states of the live `harDataMap` observable during
`loadHars`: the map is cleared first (`harDataMap.clear()`), and each
document is loaded behind an `await`, so a concurrent matcher lookup can run
between any two elements of this list. -/
def reloadStates (docs : List (Option (List HarEntry))) : List Index :=
  List.scanl processSingleHarFile [] docs

end Srv

/-! ## SAZ to HAR converter (src/saz-converter.ts) -/

namespace Saz

structure HarHeader where
  name : String
  value : String
deriving DecidableEq, Repr

structure HarParam where
  name : String
  value : String
deriving DecidableEq, Repr

structure HarPostData where
  mimeType : String
  text : Option String := none
  params : Option (List HarParam) := none
  encoding : Option String := none
deriving DecidableEq, Repr

structure HarRequest where
  method : String
  url : String
  headers : List HarHeader
  postData : Option HarPostData := none
deriving DecidableEq, Repr

structure HarContent where
  text : Option String := none
  encoding : Option String := none
  mimeType : String
  size : Int
deriving DecidableEq, Repr

structure HarResponse where
  status : Int
  statusText : String
  headers : List HarHeader
  content : HarContent
deriving DecidableEq, Repr

/-- One emitted archive entry.  `startedDateTime` (a wall-clock timestamp),
`time = 0` and the empty `cache`/`timings` objects carry no information any
claim reads and are not modelled. -/
structure HarEntry where
  request : HarRequest
  response : HarResponse
deriving DecidableEq, Repr

structure HarLog where
  version : String
  creatorName : String
  creatorVersion : String
  entries : List HarEntry
deriving DecidableEq, Repr

structure HarFile where
  log : HarLog
deriving DecidableEq, Repr

/-- Split a message at the first `CRLF CRLF`, else the first `LF LF`, else
treat everything as headers with an empty body. -/
def splitHeadersBody (buffer : Bytes) : Bytes × Bytes :=
  match findSubseq [13, 10, 13, 10] buffer with
  | some i => (buffer.take i, buffer.drop (i + 4))
  | none =>
    match findSubseq [10, 10] buffer with
    | some j => (buffer.take j, buffer.drop (j + 2))
    | none => (buffer, [])

/-- Header-line loop: stop at the first empty line; keep lines whose first
colon is at a positive index, name and value trimmed; drop the rest. -/
def parseHeaderLines : List String → List HarHeader
  | [] => []
  | line :: rest =>
    if line == "" then []
    else
      match line.data.findIdx? (· == ':') with
      | some i =>
        if 0 < i then
          { name := strTrim (String.mk (line.data.take i)),
            value := strTrim (String.mk (line.data.drop (i + 1))) } ::
            parseHeaderLines rest
        else parseHeaderLines rest
      | none => parseHeaderLines rest

def findHeaderLower (headers : List HarHeader) (nm : String) : Option HarHeader :=
  headers.find? fun h => strLower h.name == nm

/-- MIME type: `Content-Type` up to `;`, trimmed; default `text/plain`. -/
def mimeTypeOf (headers : List HarHeader) : String :=
  match findHeaderLower headers "content-type" with
  | some h => strTrim ((strSplitOn ';' h.value).headD "")
  | none => "text/plain"

/-- Control-byte scan shared by both classifiers. -/
def hasControlByte (bs : Bytes) : Bool :=
  bs.any fun b => b ≤ 0x08 || (0x0B ≤ b && b ≤ 0x1F) || b == 0x7F

/-- Textual MIME prefixes of the request-side classifier. -/
def reqTextMimeTypes : List String :=
  ["text/", "application/json", "application/javascript", "application/xml",
   "application/xhtml+xml"]

/-- Binary MIME prefixes of the response-side classifier. -/
def respBinaryMimeTypes : List String :=
  ["image/", "application/octet-stream", "application/pdf", "application/zip",
   "application/x-zip-compressed",
   "application/vnd.openxmlformats-officedocument", "application/msword",
   "application/vnd.ms-excel", "application/vnd.ms-powerpoint"]

/-- Textual MIME prefixes of the response-side classifier. -/
def respTextMimeTypes : List String :=
  ["text/", "application/json", "application/javascript", "application/xml",
   "application/xhtml+xml", "application/rss+xml", "application/atom+xml"]

/-- Request-body classification from `parseHttpRequest` (`true` = store as
base64): image MIME, or any control byte, or a non-textual MIME with a
nonempty body. -/
def classifyRequestBody (mimeType : String) (bodyBuffer : Bytes) : Bool :=
  let isTextContent := reqTextMimeTypes.any fun t => strStartsWith mimeType t
  let isBinary := hasControlByte bodyBuffer
  strStartsWith mimeType "image/" || isBinary ||
    (!isTextContent && bodyBuffer.length > 0)

/-- Response-body classification from `parseHttpResponse` (`true` = store as
base64): image MIME, or binary-list MIME, or a control byte while not in the
textual list. -/
def classifyResponseBody (mimeType : String) (bodyBuffer : Bytes) : Bool :=
  let isBinaryContent := respBinaryMimeTypes.any fun t => strStartsWith mimeType t
  let isTextContent := respTextMimeTypes.any fun t => strStartsWith mimeType t
  strStartsWith mimeType "image/" || isBinaryContent ||
    (!isTextContent && hasControlByte bodyBuffer)

/-- One `key=value` token of a form-encoded request body:
`pair.split('=')` destructured to its first two parts (missing parts default
to the empty string), both sides passed through `decodeURIComponent`, whose
`URIError` propagates (`Except.error`). -/
def parseFormPair (pair : String) : Except Unit HarParam := do
  let name ← decodeURIComponentE ((strSplitOn '=' pair).getD 0 "")
  let value ← decodeURIComponentE ((strSplitOn '=' pair).getD 1 "")
  return { name := name, value := value }

/-- The `postData` block of `parseHttpRequest` (only entered for a nonempty
body): a form-encoded body becomes a parameter list, anything else becomes
base64 or UTF-8 text per the request classifier. -/
def parsePostData (headers : List HarHeader) (bodyBuffer : Bytes) :
    Except Unit (Option HarPostData) :=
  if bodyBuffer.isEmpty then .ok none
  else
    let mimeType := mimeTypeOf headers
    if mimeType == "application/x-www-form-urlencoded" then
      let bodyString := utf8Decode bodyBuffer
      ((strSplitOn '&' bodyString).mapM parseFormPair).map fun params =>
        some { mimeType := mimeType, params := some params }
    else if classifyRequestBody mimeType bodyBuffer then
      .ok (some { mimeType := mimeType, text := some (base64Encode bodyBuffer),
                  encoding := some "base64" })
    else
      .ok (some { mimeType := mimeType, text := some (utf8Decode bodyBuffer) })

/-- `parseHttpRequest`.  `.ok none` models the source returning `null`;
`.error ()` models a thrown `URIError` from `decodeURIComponent`. -/
def parseHttpRequestE (requestContent : Option Bytes) :
    Except Unit (Option HarRequest) :=
  match requestContent with
  | none => .ok none
  | some buffer =>
    if buffer.isEmpty then .ok none
    else
      let (headersBuffer, bodyBuffer) := splitHeadersBody buffer
      let lines := (splitLinesChars (utf8Decode headersBuffer).data).map String.mk
      let requestLine := strTrim (lines.headD "")
      let parts := strSplitOn ' ' requestLine
      let method := parts.getD 0 ""
      let url := parts.getD 1 ""
      if method == "" || url == "" then .ok none
      else
        let headers := parseHeaderLines (lines.drop 1)
        (parsePostData headers bodyBuffer).map fun postData =>
          some { method := method, url := url, headers := headers,
                 postData := postData }

/-- `parseHttpResponse`: returns `none` where the source returns `null`
(no content, or a status code that is not an integer); never throws. -/
def parseHttpResponseJs (responseContent : Option Bytes) : Option HarResponse :=
  match responseContent with
  | none => none
  | some buffer =>
    if buffer.isEmpty then none
    else
      let (headersBuffer, bodyBuffer) := splitHeadersBody buffer
      let lines := (splitLinesChars (utf8Decode headersBuffer).data).map String.mk
      let statusLine := strTrim (lines.headD "")
      let parts := strSplitOn ' ' statusLine
      match parseIntJs (parts.getD 1 "") with
      | none => none
      | some status =>
        let statusText := String.intercalate " " (parts.drop 2)
        let headers := parseHeaderLines (lines.drop 1)
        -- `contentLength` is assigned on every content-length header line,
        -- so the last such header wins; `parseInt(value) || 0` maps NaN to 0
        let contentLength : Int :=
          match (headers.filter fun h => strLower h.name == "content-length").getLast? with
          | some h => (parseIntJs h.value).getD 0
          | none => 0
        let mimeType := mimeTypeOf headers
        let size : Int :=
          if contentLength == 0 then Int.ofNat bodyBuffer.length else contentLength
        let content : HarContent :=
          if classifyResponseBody mimeType bodyBuffer then
            { mimeType := mimeType, size := size, encoding := some "base64",
              text := some (base64Encode bodyBuffer) }
          else
            { mimeType := mimeType, size := size,
              text := some (utf8Decode bodyBuffer) }
        some { status := status, statusText := statusText, headers := headers,
               content := content }

inductive SazRole where
  | request
  | response
  | metadata
  | websocket
deriving DecidableEq, Repr

structure SazFileData where
  position : Nat
  role : SazRole
  content : Bytes
deriving DecidableEq, Repr

/-- The filename regex `/(\d+)_(s|c|m|w)/`: leftmost position where a
(maximal) digit run is followed by `_` and a role letter.  Digits cannot be
`_`, so the JS backtracking inside the digit run never helps and maximal
runs are faithful. -/
def sazNameMatch : List Char → Option (Nat × Char)
  | [] => none
  | c :: cs =>
    if (digitVal c).isSome then
      let (ds, rest) := takeDigits (c :: cs)
      match rest with
      | '_' :: l :: _ =>
        if l == 's' || l == 'c' || l == 'm' || l == 'w' then
          some (digitsToNat ds, l)
        else sazNameMatch cs
      | _ => sazNameMatch cs
    else sazNameMatch cs

def roleOfLetter (l : Char) : Option SazRole :=
  if l == 'c' then some .request
  else if l == 's' then some .response
  else if l == 'm' then some .metadata
  else if l == 'w' then some .websocket
  else none

/-- `parseSazFile`: files not matching the name pattern are ignored. -/
def parseSazFile (filename : String) (content : Bytes) : Option SazFileData :=
  match sazNameMatch filename.data with
  | none => none
  | some (pos, l) =>
    (roleOfLetter l).map fun role =>
      { position := pos, role := role, content := content }

/-- One merged transaction (`mergedData[position]`). -/
structure MergedTx where
  request : Option Bytes := none
  response : Option Bytes := none
  metadata : Option Bytes := none
deriving DecidableEq, Repr

/-- Merge all blobs of one sequence number: assignments happen in input
order, so the same role appearing twice is last-write-wins; an empty blob is
falsy (`if (data.raw.request)`) and never assigned; websocket blobs are
never read. -/
def mergeAt (sazData : List SazFileData) (pos : Nat) : MergedTx :=
  (sazData.filter fun d => d.position == pos).foldl
    (fun acc d =>
      match d.role with
      | .request => if d.content.isEmpty then acc else { acc with request := some d.content }
      | .response => if d.content.isEmpty then acc else { acc with response := some d.content }
      | .metadata => if d.content.isEmpty then acc else { acc with metadata := some d.content }
      | .websocket => acc)
    {}

/-- Ordered insertion without duplicates. -/
def insertPos (n : Nat) : List Nat → List Nat
  | [] => [n]
  | m :: ms =>
    if n < m then n :: m :: ms
    else if n = m then m :: ms
    else m :: insertPos n ms

/-- The distinct sequence numbers in ascending order: a JS object whose keys
are array indices (`mergedData[position]`) iterates them in ascending
numeric order in `for (const position in mergedData)`. -/
def positionsOf (sazData : List SazFileData) : List Nat :=
  (sazData.map (·.position)).foldl (fun acc p => insertPos p acc) []

/-- Loop body of `convertSazDataToHar` at one sequence number: parse both
halves of the merged transaction and append an entry only when both
parsed. -/
def convertStep (sazData : List SazFileData) (acc : List HarEntry)
    (pos : Nat) : Except Unit (List HarEntry) := do
  let request ← parseHttpRequestE (mergeAt sazData pos).request
  match request, parseHttpResponseJs (mergeAt sazData pos).response with
  | some req, some resp => pure (acc ++ [HarEntry.mk req resp])
  | _, _ => pure acc

/-- `convertSazDataToHar`: walk the merged transactions in ascending
sequence order, parse both halves, and emit an entry only when both parsed;
a `URIError` thrown by the request parser aborts the whole conversion. -/
def convertSazDataToHar (sazData : List SazFileData) : Except Unit HarFile := do
  let entries ← (positionsOf sazData).foldlM (convertStep sazData) []
  return { log := { version := "1.2",
                    creatorName := "service-for-har-saz-converter",
                    creatorVersion := "1.0.0", entries := entries } }

/-- The entry the assembler derives from one sequence number, stated
independently of the fold: present exactly when both halves parse. -/
def entryAt (sazData : List SazFileData) (pos : Nat) : Option HarEntry :=
  match parseHttpRequestE (mergeAt sazData pos).request,
        parseHttpResponseJs (mergeAt sazData pos).response with
  | .ok (some req), some resp => some (HarEntry.mk req resp)
  | _, _ => none

/-- `convertSazToHar`, the whole conversion operation.  `none` models a
bundle that cannot be unpacked (zip extraction fails or the `raw/` directory
is unreadable): the operation throws before any archive is produced.  On
`some files` (filename and content of every file in `raw/`), the archive
document in `.ok` is written to the output path; `.error ()` is a thrown
exception with no archive written. -/
def convertSazToHar (bundle : Option (List (String × Bytes))) :
    Except Unit HarFile :=
  match bundle with
  | none => .error ()
  | some files =>
    convertSazDataToHar (files.filterMap fun f => parseSazFile f.1 f.2)

end Saz

/-! ## Derived counters and concrete fixtures used by the theorems -/

/-- Number of requests in the list that find no attribute match against the
given candidate list. -/
def Srv.unmatchedCount (rs : List Srv.Request) (entries : List Srv.HarEntry) : Nat :=
  (rs.filter fun r => (Srv.priorityMatch r entries).isNone).length

/-- Recorded GET entry at path /a with query x=1. -/
def egA : Srv.HarEntry :=
  { request := some { method := some "GET", url := some "/a?x=1" },
    response := some {} }

/-- Recorded GET entry at path /a with query x=2. -/
def egB : Srv.HarEntry :=
  { request := some { method := some "GET", url := some "/a?x=2" },
    response := some {} }

/-- Recorded GET entry at path /a with query x=3. -/
def egC : Srv.HarEntry :=
  { request := some { method := some "GET", url := some "/a?x=3" },
    response := some {} }

/-- An entry with a request URL and a response but no request method:
loading it makes `toUpperCase` of an absent field throw. -/
def entNoMethod : Srv.HarEntry :=
  { request := some { url := some "/b" }, response := some {} }

/-- An entry whose request lacks a URL: skipped at load time. -/
def entNoUrl : Srv.HarEntry :=
  { request := some {}, response := some {} }

/-- A GET request to /a whose query (x=9) matches no recorded fixture. -/
def rqNone : Srv.Request := { method := "GET", url := "/a?x=9", body := "" }

/-- A GET request to /a whose query attribute-matches `egA`. -/
def rqMatch : Srv.Request := { method := "GET", url := "/a?x=1", body := "" }

/-- A minimal parsable request blob. -/
def reqBlobA : Bytes := asciiBytes "GET /a HTTP/1.1\r\n\r\n"

/-- A minimal parsable response blob. -/
def respBlobA : Bytes := asciiBytes "HTTP/1.1 200 OK\r\n\r\n"

/-- A request blob whose form-encoded body holds a malformed percent
escape, making `decodeURIComponent` throw during conversion. -/
def reqBlobBadForm : Bytes :=
  asciiBytes
    "POST /f HTTP/1.1\r\nContent-Type: application/x-www-form-urlencoded\r\n\r\na=%zz"

/-- Two transactions: sequence 1 parses on both halves, sequence 2 has a
valid response but a request whose body parse throws. -/
def sazThrowData : List Saz.SazFileData :=
  [⟨1, .request, reqBlobA⟩, ⟨1, .response, respBlobA⟩,
   ⟨2, .request, reqBlobBadForm⟩, ⟨2, .response, respBlobA⟩]

/-- A bundle with a single request-only transaction: zero valid entries. -/
def zeroEntryBundle : List (String × Bytes) := [("01_c.txt", reqBlobA)]

/-- A bundle with two transactions, each missing one half: zero valid
entries spread over two sequence numbers. -/
def halfBundle : List (String × Bytes) :=
  [("01_c.txt", reqBlobA), ("02_s.txt", respBlobA)]

/-- A single request-only transaction, as parsed SAZ data. -/
def sazReqOnly : List Saz.SazFileData := [⟨1, .request, reqBlobA⟩]

/-- The archive document emitted for a conversion with zero valid
entries. -/
def harEmpty : Saz.HarFile :=
  { log := { version := "1.2", creatorName := "service-for-har-saz-converter",
             creatorVersion := "1.0.0", entries := [] } }

/-- Headers carrying the form-urlencoded content type. -/
def formHeaders : List Saz.HarHeader :=
  [{ name := "Content-Type", value := "application/x-www-form-urlencoded" }]

/-! ## Claim C10: empty-body substitution in the JSON body predicate -/

/-- Claim C10: in the JSON branch of the body predicate, an empty live body
string and an empty recorded body text are each substituted by the
empty-object text before parsing and comparison; consequently an empty live
body matches a candidate whose recorded text is the empty-object text or
the empty string, and a live empty-object body matches a candidate whose
recorded text is the empty string. -/
theorem compareBody_empty_object_subst :
    Srv.substEmpty "" = "\x7b\x7d" ∧
    Srv.compareBody ""
      (some { mimeType := "application/json", text := some "\x7b\x7d" }) = true ∧
    Srv.compareBody ""
      (some { mimeType := "application/json", text := some "" }) = true ∧
    Srv.compareBody "\x7b\x7d"
      (some { mimeType := "application/json", text := some "" }) = true :=
  ⟨rfl, rfl, rfl, rfl⟩

/-! ## Claim C4: the JSON body-match predicate -/

/-- Claim C4 is false as stated: the empty live body does not parse as JSON,
and yet it matches a candidate recorded as application/json whose text is
the (validly parsable) empty-object text — so the predicate does not hold
"exactly when both bodies parse as JSON", and an unparsable live body is
treated as equal to a parsable recorded body. -/
theorem compareBody_unparsable_live_matches :
    Srv.compareBody ""
      (some { mimeType := "application/json", text := some "\x7b\x7d" }) = true ∧
    jsonParse "" = none ∧
    (jsonParse "\x7b\x7d").isSome = true :=
  ⟨rfl, rfl, rfl⟩

/-- Claim C4 (amended): for a candidate recorded with MIME type
application/json and a recorded text, the body predicate holds exactly when
both bodies, after the empty-string-to-empty-object substitution, parse as
JSON and Node's deepEqual accepts the parsed values — structural comparison
disregarding object key order, numbers compared as the binary64 doubles
`JSON.parse` produces, and loose primitive coercion (a live body of 1
matches a recorded string of 1).  In particular a nonempty body that fails
to parse never matches, and the only unparsable live body treated as equal
to a parsable recorded body is the empty string. -/
theorem compareBody_json_characterization (reqBody harBody : String)
    (pd : Srv.HarPostData) (htext : pd.text = some harBody)
    (hmime : strTrim ((strSplitOn ';' pd.mimeType).headD "") = "application/json") :
    Srv.compareBody reqBody (some pd) = true ↔
      ∃ a b, jsonParse (Srv.substEmpty reqBody) = some a ∧
        jsonParse (Srv.substEmpty harBody) = some b ∧ jsonEq a b = true := by
  obtain ⟨mime, text⟩ := pd
  simp only at htext hmime
  subst htext
  simp only [Srv.compareBody]
  rw [hmime]
  simp only [beq_self_eq_true, if_true]
  cases ha : jsonParse (Srv.substEmpty reqBody) <;>
    cases hb : jsonParse (Srv.substEmpty harBody) <;>
      simp [ha, hb]

/-! ## Claim C5: request-body vs response-body classification parity -/

/-- If none of the prefixes in `ps` is prefix-compatible with any prefix in
`qs`, a string starting with some member of `ps` starts with no member of
`qs` (prefixes of a common string are always comparable). -/
theorem any_startsWith_disjoint (ps qs : List String) (m : String)
    (h : (ps.all fun p => qs.all fun q =>
        !(p.data.isPrefixOf q.data) && !(q.data.isPrefixOf p.data)) = true)
    (hp : (ps.any fun t => strStartsWith m t) = true) :
    (qs.any fun t => strStartsWith m t) = false := by
  rw [List.any_eq_true] at hp
  obtain ⟨p, hpm, hps⟩ := hp
  by_contra hq
  rw [Bool.not_eq_false, List.any_eq_true] at hq
  obtain ⟨q, hqm, hqs⟩ := hq
  simp only [strStartsWith] at hps hqs
  have h1 : p.data <+: m.data := List.isPrefixOf_iff_prefix.mp hps
  have h2 : q.data <+: m.data := List.isPrefixOf_iff_prefix.mp hqs
  rw [List.all_eq_true] at h
  have h4 := h p hpm
  rw [List.all_eq_true] at h4
  have h5 := h4 q hqm
  rw [Bool.and_eq_true] at h5
  rcases List.prefix_or_prefix_of_prefix h1 h2 with h6 | h6
  · have := List.isPrefixOf_iff_prefix.mpr h6
    simp [this] at h5
  · have := List.isPrefixOf_iff_prefix.mpr h6
    simp [this] at h5

/-- Claim C5 is false as stated: for MIME type text/plain — a member of
both textual allow-lists — and a body holding the single control byte 0x01,
the request classifier stores base64 while the response classifier decodes
UTF-8 text; and for application/rss+xml with a printable body the request
side stores base64 while the response side stores text.  The two
classifiers disagree even outside the response-side allow-list
additions. -/
theorem classify_req_resp_divergence :
    Saz.classifyRequestBody "text/plain" [0x01] = true ∧
    Saz.classifyResponseBody "text/plain" [0x01] = false ∧
    Saz.classifyRequestBody "application/rss+xml" (asciiBytes "ok") = true ∧
    Saz.classifyResponseBody "application/rss+xml" (asciiBytes "ok") = false := by
  refine ⟨by decide, by decide, by decide, by decide⟩

/-- Claim C5 (amended): the two classifiers are distinct policies that
agree only on part of their domain.  For every nonempty body they make the
same decision when the MIME type starts with image/ (both base64), when it
starts with a member of the response-side binary allow-list (both base64),
and when it starts with a member of the shared textual allow-list and the
body has no control byte (both text); outside these domains they can
disagree, as the counterexample shows. -/
theorem classify_agreement_domains (m : String) (b : Bytes) (hb : b ≠ []) :
    (strStartsWith m "image/" = true →
      Saz.classifyRequestBody m b = true ∧ Saz.classifyResponseBody m b = true) ∧
    ((Saz.respBinaryMimeTypes.any fun t => strStartsWith m t) = true →
      Saz.classifyRequestBody m b = true ∧ Saz.classifyResponseBody m b = true) ∧
    ((Saz.reqTextMimeTypes.any fun t => strStartsWith m t) = true →
      Saz.hasControlByte b = false →
      Saz.classifyRequestBody m b = false ∧ Saz.classifyResponseBody m b = false) := by
  have hlen : 0 < b.length := List.length_pos.mpr hb
  refine ⟨fun himg => ?_, fun hbin => ?_, fun htext hctl => ?_⟩
  · constructor
    · simp [Saz.classifyRequestBody, himg]
    · simp [Saz.classifyResponseBody, Saz.respBinaryMimeTypes, himg]
  · have hnotText := any_startsWith_disjoint Saz.respBinaryMimeTypes
      Saz.reqTextMimeTypes m (by decide) hbin
    constructor
    · simp [Saz.classifyRequestBody, hnotText, hlen]
    · simp [Saz.classifyResponseBody, hbin]
  · have himg : (["image/"].any fun t => strStartsWith m t) = false :=
      any_startsWith_disjoint Saz.reqTextMimeTypes ["image/"] m (by decide) htext
    have hbin := any_startsWith_disjoint Saz.reqTextMimeTypes
      Saz.respBinaryMimeTypes m (by decide) htext
    simp only [List.any_cons, List.any_nil, Bool.or_false] at himg
    constructor
    · simp [Saz.classifyRequestBody, himg, hctl, htext]
    · simp [Saz.classifyResponseBody, himg, hbin, hctl]

/-- Witness for C5: the agreement theorem applied at application/pdf with a
printable two-byte body — a case where both classifiers store base64. -/
theorem classify_agreement_domains_witness :
    (strStartsWith "application/pdf" "image/" = true →
      Saz.classifyRequestBody "application/pdf" [104, 105] = true ∧
      Saz.classifyResponseBody "application/pdf" [104, 105] = true) ∧
    ((Saz.respBinaryMimeTypes.any fun t => strStartsWith "application/pdf" t) = true →
      Saz.classifyRequestBody "application/pdf" [104, 105] = true ∧
      Saz.classifyResponseBody "application/pdf" [104, 105] = true) ∧
    ((Saz.reqTextMimeTypes.any fun t => strStartsWith "application/pdf" t) = true →
      Saz.hasControlByte [104, 105] = false →
      Saz.classifyRequestBody "application/pdf" [104, 105] = false ∧
      Saz.classifyResponseBody "application/pdf" [104, 105] = false) :=
  classify_agreement_domains "application/pdf" [104, 105] (by decide)

/-- Witness for C4: the order-swapped JSON body from the specification
example matches, through the characterization applied at concrete inputs. -/
theorem compareBody_json_characterization_witness :
    Srv.compareBody "\x7b\"b\":2,\"a\":1\x7d"
      (some { mimeType := "application/json; charset=utf-8",
              text := some "\x7b\"a\":1,\"b\":2\x7d" }) = true :=
  (compareBody_json_characterization "\x7b\"b\":2,\"a\":1\x7d"
      "\x7b\"a\":1,\"b\":2\x7d"
      { mimeType := "application/json; charset=utf-8",
        text := some "\x7b\"a\":1,\"b\":2\x7d" }
      rfl (by decide)).mpr ⟨_, _, rfl, rfl, rfl⟩

/-! ## Claims C2 and C3: the fallback cursor -/

theorem runRequests_nil (s : Srv.ReplayState) :
    Srv.runRequests [] s = ([], s) := rfl

theorem runRequests_cons (r : Srv.Request) (rs : List Srv.Request)
    (s : Srv.ReplayState) :
    Srv.runRequests (r :: rs) s =
      ((Srv.replayStep r s).1 :: (Srv.runRequests rs (Srv.replayStep r s).2).1,
       (Srv.runRequests rs (Srv.replayStep r s).2).2) := rfl

/-- A run of fallback-served (unmatched) requests that keeps the cursor
within the list serves the entries at cursor, cursor+1, … in order and
moves the cursor by the number of requests, modulo the list length. -/
theorem run_unmatched_aux (reqs : List Srv.Request) : ∀ s : Srv.ReplayState,
    s.entries ≠ [] →
    s.currentIndex < s.entries.length →
    (∀ q ∈ reqs, Srv.priorityMatch q s.entries = none) →
    s.currentIndex + reqs.length ≤ s.entries.length →
    (Srv.runRequests reqs s).1 =
      ((s.entries.drop s.currentIndex).take reqs.length).map some ∧
    (Srv.runRequests reqs s).2.entries = s.entries ∧
    (Srv.runRequests reqs s).2.currentIndex =
      (s.currentIndex + reqs.length) % s.entries.length := by
  induction reqs with
  | nil =>
    intro s hne hc hunm hle
    rw [runRequests_nil]
    refine ⟨rfl, rfl, ?_⟩
    simp [Nat.mod_eq_of_lt hc]
  | cons q qs ih =>
    intro s hne hc hunm hle
    obtain ⟨es, c⟩ := s
    dsimp only at hne hc hunm hle ⊢
    simp only [List.length_cons] at hle ⊢
    have hq := hunm q (List.mem_cons_self q qs)
    have hemp : es.isEmpty = false := by
      cases es with
      | nil => exact absurd rfl hne
      | cons a l => rfl
    have hget : es[c]? = some es[c] := List.getElem?_eq_getElem hc
    have hdrop : es.drop c = es[c] :: es.drop (c + 1) :=
      List.drop_eq_getElem_cons hc
    by_cases hcN : c + 1 = es.length
    · have hqs : qs = [] := List.length_eq_zero.mp (by omega)
      subst hqs
      have hstep : Srv.replayStep q ⟨es, c⟩ =
          (es[c]?, ⟨es, (c + 1) % es.length⟩) := by
        simp [Srv.replayStep, hemp, hq]
      rw [runRequests_cons, hstep]
      dsimp only
      rw [runRequests_nil]
      refine ⟨?_, rfl, ?_⟩
      · simp only [hget, hdrop, List.length_nil, List.take_succ_cons,
          List.take_zero, List.map_cons, List.map_nil]
      · simp only [List.length_nil]
    · have hlt : c + 1 < es.length := by omega
      have hmod : (c + 1) % es.length = c + 1 := Nat.mod_eq_of_lt hlt
      have hstep : Srv.replayStep q ⟨es, c⟩ = (es[c]?, ⟨es, c + 1⟩) := by
        simp [Srv.replayStep, hemp, hq, hmod]
      obtain ⟨ih1, ihe, ihc⟩ := ih ⟨es, c + 1⟩ hne hlt
        (fun q2 hq2 => hunm q2 (List.mem_cons_of_mem q hq2))
        (by dsimp only; omega)
      dsimp only at ih1 ihe ihc
      rw [runRequests_cons, hstep]
      dsimp only
      refine ⟨?_, ihe, ?_⟩
      · rw [ih1, hget, hdrop, List.take_succ_cons, List.map_cons]
      · rw [ihc]
        congr 1
        omega

/-- Claim C2: with cursor 0 and a candidate list of length N, N consecutive
requests with no attribute match serve each of the N recorded entries
exactly once, in archive order; the cursor returns to 0 and one further
unmatched request serves entry 0 again. -/
theorem fallback_round_robin (s : Srv.ReplayState) (reqs : List Srv.Request)
    (r : Srv.Request) (hne : s.entries ≠ []) (h0 : s.currentIndex = 0)
    (hlen : reqs.length = s.entries.length)
    (hunm : ∀ q ∈ reqs, Srv.priorityMatch q s.entries = none)
    (hr : Srv.priorityMatch r s.entries = none) :
    (Srv.runRequests reqs s).1 = s.entries.map some ∧
    (Srv.runRequests reqs s).2.entries = s.entries ∧
    (Srv.runRequests reqs s).2.currentIndex = 0 ∧
    (Srv.replayStep r (Srv.runRequests reqs s).2).1 = s.entries[0]? := by
  have hpos : 0 < s.entries.length := List.length_pos.mpr hne
  have hc : s.currentIndex < s.entries.length := by rw [h0]; exact hpos
  obtain ⟨h1, h2, h3⟩ := run_unmatched_aux reqs s hne hc hunm (by rw [h0, hlen]; omega)
  have hcur : (Srv.runRequests reqs s).2.currentIndex = 0 := by
    rw [h3, h0, hlen]; simp
  have hempS : s.entries.isEmpty = false := by
    cases hE : s.entries with
    | nil => exact absurd hE hne
    | cons a l => rfl
  refine ⟨?_, h2, hcur, ?_⟩
  · rw [h1, h0, hlen]
    simp
  · simp [Srv.replayStep, h2, hcur, hempS, hr]

/-- Witness for C2: two recorded GET entries at /a, two unmatched requests
serve them in order, and a third serves entry 0 again. -/
theorem fallback_round_robin_witness :
    (Srv.runRequests [rqNone, rqNone] ⟨[egA, egB], 0⟩).1 = [egA, egB].map some ∧
    (Srv.runRequests [rqNone, rqNone] ⟨[egA, egB], 0⟩).2.entries = [egA, egB] ∧
    (Srv.runRequests [rqNone, rqNone] ⟨[egA, egB], 0⟩).2.currentIndex = 0 ∧
    (Srv.replayStep rqNone (Srv.runRequests [rqNone, rqNone] ⟨[egA, egB], 0⟩).2).1 =
      [egA, egB][0]? :=
  fallback_round_robin ⟨[egA, egB], 0⟩ [rqNone, rqNone] rqNone
    (by decide) rfl rfl (by decide) (by decide)

/-- Claim C3: for every interleaving of requests against one endpoint, the
cursor advances by exactly the number of fallback-served (unmatched)
requests, modulo the list length; an attribute-matched request leaves the
whole state untouched; no request changes the candidate list. -/
theorem cursor_advances_only_on_fallback (s : Srv.ReplayState)
    (reqs : List Srv.Request) (hne : s.entries ≠ [])
    (hc : s.currentIndex < s.entries.length) :
    (Srv.runRequests reqs s).2.entries = s.entries ∧
    (Srv.runRequests reqs s).2.currentIndex =
      (s.currentIndex + Srv.unmatchedCount reqs s.entries) % s.entries.length ∧
    (∀ r e, Srv.priorityMatch r s.entries = some e →
      Srv.replayStep r s = (some e, s)) := by
  have hemp : s.entries.isEmpty = false := by
    cases hE : s.entries with
    | nil => exact absurd hE hne
    | cons a l => rfl
  have hpos : 0 < s.entries.length := List.length_pos.mpr hne
  have hmatch : ∀ r e, Srv.priorityMatch r s.entries = some e →
      Srv.replayStep r s = (some e, s) := by
    intro r e hre
    simp [Srv.replayStep, hemp, hre]
  have main : ∀ (rs : List Srv.Request) (c : Nat), c < s.entries.length →
      (Srv.runRequests rs ⟨s.entries, c⟩).2.entries = s.entries ∧
      (Srv.runRequests rs ⟨s.entries, c⟩).2.currentIndex =
        (c + Srv.unmatchedCount rs s.entries) % s.entries.length := by
    intro rs
    induction rs with
    | nil =>
      intro c hc2
      exact ⟨rfl, by simp [Srv.runRequests, Srv.unmatchedCount, Nat.mod_eq_of_lt hc2]⟩
    | cons q qs ih =>
      intro c hc2
      cases hq : Srv.priorityMatch q s.entries with
      | some e =>
        have hstep : Srv.replayStep q ⟨s.entries, c⟩ = (some e, ⟨s.entries, c⟩) := by
          simp [Srv.replayStep, hemp, hq]
        obtain ⟨ih1, ih2⟩ := ih c hc2
        constructor
        · simpa [Srv.runRequests, hstep] using ih1
        · have : Srv.unmatchedCount (q :: qs) s.entries =
              Srv.unmatchedCount qs s.entries := by
            simp [Srv.unmatchedCount, hq]
          rw [this]
          simpa [Srv.runRequests, hstep] using ih2
      | none =>
        have hstep : Srv.replayStep q ⟨s.entries, c⟩ =
            (s.entries[c]?, ⟨s.entries, (c + 1) % s.entries.length⟩) := by
          simp [Srv.replayStep, hemp, hq]
        obtain ⟨ih1, ih2⟩ := ih ((c + 1) % s.entries.length) (Nat.mod_lt _ hpos)
        constructor
        · simpa [Srv.runRequests, hstep] using ih1
        · have hcount : Srv.unmatchedCount (q :: qs) s.entries =
              Srv.unmatchedCount qs s.entries + 1 := by
            simp [Srv.unmatchedCount, hq]
          have hrun : (Srv.runRequests (q :: qs) ⟨s.entries, c⟩).2.currentIndex =
              (Srv.runRequests qs ⟨s.entries, (c + 1) % s.entries.length⟩).2.currentIndex := by
            simp [Srv.runRequests, hstep]
          rw [hrun, ih2, Nat.mod_add_mod, hcount]
          congr 1
          omega
  obtain ⟨m1, m2⟩ := main reqs s.currentIndex hc
  exact ⟨m1, m2, hmatch⟩

/-! ## Claim C1: reload atomicity -/

theorem scanl_getLast_eq_foldl {α β : Type} (f : β → α → β) :
    ∀ (l : List α) (b : β), (List.scanl f b l).getLast? = some (l.foldl f b) := by
  intro l
  induction l with
  | nil => intro b; rfl
  | cons a t ih =>
    intro b
    have h1 : List.scanl f b (a :: t) = b :: List.scanl f (f b a) t := by
      rw [List.scanl_cons]; rfl
    rw [h1, List.foldl_cons]
    cases ht : List.scanl f (f b a) t with
    | nil => exact absurd ht (by cases t <;> simp [List.scanl])
    | cons x m => rw [List.getLast?_cons_cons, ← ht, ih]

/-- Claim C1 is false as stated: reload clears the live map in place and
repopulates it document by document.  With one endpoint recorded before the
reload and two documents to load, the state observable after the first
document is neither the fully-old nor the fully-new index, and the state
observable right after the clear is the empty index, also neither. -/
theorem reload_mid_state_cex :
    Srv.reloadStates [some [egB], some [egC]] =
      [[], Srv.buildIndex [some [egB]],
       Srv.buildIndex [some [egB], some [egC]]] ∧
    Srv.buildIndex [some [egB]] ≠ Srv.buildIndex [some [egA]] ∧
    Srv.buildIndex [some [egB]] ≠ Srv.buildIndex [some [egB], some [egC]] ∧
    ([] : Srv.Index) ≠ Srv.buildIndex [some [egA]] :=
  ⟨by decide, by decide, by decide, by decide⟩

/-- Claim C1 (amended): reload does not construct a new index and swap it
in one step — it clears the live map, then repopulates it document by
document with an asynchronous suspension point between documents, so a
concurrent lookup can observe any element of `reloadStates`.  The first
observable state is the empty index and the final state equals the index
built afresh from the documents; the counterexample exhibits a middle state
equal to neither the old nor the new index. -/
theorem reload_clears_then_rebuilds (docs : List (Option (List Srv.HarEntry))) :
    (Srv.reloadStates docs).head? = some ([] : Srv.Index) ∧
    (Srv.reloadStates docs).getLast? = some (Srv.buildIndex docs) := by
  constructor
  · cases docs <;> rfl
  · exact scanl_getLast_eq_foldl Srv.processSingleHarFile docs []

/-! ## Claim C8: index-build skip behavior -/

/-- Claim C8 is false as stated: an entry lacking only its request method
is not "skipped while every remaining well-formed entry still loads" — the
document's processing aborts there, so the first entry is loaded and the
third (well-formed, loadable on its own, as the second clause shows) is
lost. -/
theorem index_method_abort_cex :
    Srv.processSingleHarFile [] (some [egA, entNoMethod, egB]) =
      [("GET", [("/a", { entries := [egA], currentIndex := 0 })])] ∧
    Srv.processSingleHarFile [] (some [egB]) =
      [("GET", [("/a", { entries := [egB], currentIndex := 0 })])] :=
  ⟨by decide, by decide⟩

/-- Claim C8 (amended): an entry with an absent (or empty) request URL or
an absent response is skipped and every remaining entry of the same
document is still processed; an entry that passes that check but lacks a
request method aborts the rest of its document while keeping what was
already added; a document that fails to parse is skipped entirely and the
other documents still load. -/
theorem index_build_skip_and_abort (idx : Srv.Index) (e eb : Srv.HarEntry)
    (rest : List Srv.HarEntry)
    (docs1 docs2 : List (Option (List Srv.HarEntry)))
    (hskip : e.request = none ∨
      (∃ r, e.request = some r ∧ (r.url = none ∨ r.url = some "")) ∨
      e.response = none)
    (rb : Srv.HarRequest) (ub : String) (hb1 : eb.request = some rb)
    (hb2 : rb.url = some ub) (hb3 : ub ≠ "") (hb4 : eb.response ≠ none)
    (hb5 : rb.method = none) :
    Srv.processEntriesAux idx (e :: rest) = Srv.processEntriesAux idx rest ∧
    Srv.processEntriesAux idx (eb :: rest) = idx ∧
    Srv.buildIndex (docs1 ++ none :: docs2) = Srv.buildIndex (docs1 ++ docs2) := by
  refine ⟨?_, ?_, ?_⟩
  · cases he : e.request with
    | none => simp [Srv.processEntriesAux, he]
    | some r =>
      cases hu : r.url with
      | none => simp [Srv.processEntriesAux, he, hu]
      | some u =>
        by_cases hue : u = ""
        · simp [Srv.processEntriesAux, he, hu, hue]
        · have hresp : e.response = none := by
            rcases hskip with h | ⟨r2, hr2, hu2⟩ | h
            · rw [he] at h; exact absurd h (by simp)
            · rw [he] at hr2
              have hrr := Option.some.inj hr2
              subst hrr
              rcases hu2 with h2 | h2 <;> rw [hu] at h2
              · exact absurd h2 (by simp)
              · exact absurd (Option.some.inj h2) hue
            · exact h
          simp [Srv.processEntriesAux, he, hu, hue, hresp]
  · obtain ⟨respb, hrespb⟩ := Option.ne_none_iff_exists'.mp hb4
    simp [Srv.processEntriesAux, hb1, hb2, hb3, hrespb, hb5]
  · rw [Srv.buildIndex, Srv.buildIndex, List.foldl_append, List.foldl_append,
      List.foldl_cons]
    rfl

/-- Witness for C8: the skip/abort behavior applied at concrete entries —
an entry with an absent URL before one well-formed entry, the
method-less fixture, and an unparsable document between two loadable
ones. -/
theorem index_build_skip_and_abort_witness :
    Srv.processEntriesAux [] (entNoUrl :: [egA]) = Srv.processEntriesAux [] [egA] ∧
    Srv.processEntriesAux [] (entNoMethod :: [egA]) = [] ∧
    Srv.buildIndex ([some [egA]] ++ none :: [some [egB]]) =
      Srv.buildIndex ([some [egA]] ++ [some [egB]]) :=
  index_build_skip_and_abort [] entNoUrl entNoMethod [egA] [some [egA]] [some [egB]]
    (Or.inr (Or.inl ⟨{}, rfl, Or.inl rfl⟩))
    { method := none, url := some "/b", postData := none } "/b"
    rfl rfl (by decide) (by decide) rfl

/-- Witness for C3: one matched request interleaved between unmatched ones
advances the cursor by exactly two on a two-entry endpoint. -/
theorem cursor_advances_only_on_fallback_witness :
    (Srv.runRequests [rqMatch, rqNone, rqMatch, rqNone] ⟨[egA, egB], 0⟩).2.entries =
      [egA, egB] ∧
    (Srv.runRequests [rqMatch, rqNone, rqMatch, rqNone] ⟨[egA, egB], 0⟩).2.currentIndex =
      (0 + Srv.unmatchedCount [rqMatch, rqNone, rqMatch, rqNone] [egA, egB]) % [egA, egB].length ∧
    (∀ r e, Srv.priorityMatch r [egA, egB] = some e →
      Srv.replayStep r ⟨[egA, egB], 0⟩ = (some e, ⟨[egA, egB], 0⟩)) :=
  cursor_advances_only_on_fallback ⟨[egA, egB], 0⟩ [rqMatch, rqNone, rqMatch, rqNone]
    (by decide) (by decide)

/-! ## Claim C9: form-urlencoded request bodies -/

/-- `mapM` over `Except` fails exactly when some element fails. -/
theorem mapM_except_error {α β : Type} (f : α → Except Unit β) :
    ∀ l : List α, (l.mapM f = Except.error ()) ↔ ∃ a ∈ l, f a = Except.error () := by
  intro l
  induction l with
  | nil =>
    rw [List.mapM_nil]
    constructor
    · intro h; exact Except.noConfusion h
    · intro ⟨a, ha, _⟩; exact absurd ha (List.not_mem_nil a)
  | cons a t ih =>
    rw [List.mapM_cons]
    cases hfa : f a with
    | error u =>
      cases u
      exact ⟨fun _ => ⟨a, List.mem_cons_self a t, hfa⟩, fun _ => rfl⟩
    | ok b =>
      cases hmt : List.mapM f t with
      | error u =>
        cases u
        refine ⟨fun _ => ?_, fun _ => rfl⟩
        obtain ⟨x, hx, hfx⟩ := ih.mp hmt
        exact ⟨x, List.mem_cons_of_mem a hx, hfx⟩
      | ok bs =>
        constructor
        · intro h
          exact Except.noConfusion h
        · intro ⟨x, hx, hfx⟩
          rcases List.mem_cons.mp hx with hxa | hxt
          · subst hxa
            rw [hfa] at hfx
            exact Except.noConfusion hfx
          · have h2 := ih.mpr ⟨x, hxt, hfx⟩
            rw [hmt] at h2
            exact Except.noConfusion h2

/-- One form token: success of the pair decode is the conjunction of the
successes of the two `decodeURIComponent` calls. -/
theorem parseFormPair_isOk (pair : String) :
    (Saz.parseFormPair pair).isOk =
      ((decodeURIComponentE ((strSplitOn '=' pair).getD 0 "")).isOk &&
       (decodeURIComponentE ((strSplitOn '=' pair).getD 1 "")).isOk) := by
  unfold Saz.parseFormPair
  cases h1 : decodeURIComponentE ((strSplitOn '=' pair).getD 0 "") with
  | error u => cases u; rfl
  | ok n =>
    cases h2 : decodeURIComponentE ((strSplitOn '=' pair).getD 1 "") with
    | error u => cases u; rfl
    | ok v => rfl

/-- Claim C9 is false as stated: a form-encoded body whose token holds the
malformed percent escape of z z does not parse with the token defaulting to
the empty string — `decodeURIComponent` throws and the whole request parse
fails. -/
theorem urlencoded_bad_escape_throws :
    Saz.parseHttpRequestE (some reqBlobBadForm) = Except.error () ∧
    decodeURIComponentE "%zz" = Except.error () :=
  ⟨rfl, rfl⟩

/-- Claim C9 (amended): a nonempty request body recorded with MIME type
exactly application/x-www-form-urlencoded is represented as a parameter
list — the body split on the ampersand, each token split at the equals sign
into its first two parts with missing parts defaulting to the empty string,
both percent-decoded — never as opaque text; but the parse succeeds exactly
when every token percent-decodes, and a malformed percent escape makes it
throw rather than default to the empty string. -/
theorem urlencoded_params_characterization (headers : List Saz.HarHeader)
    (body : Bytes) (hne : body ≠ [])
    (hmime : Saz.mimeTypeOf headers = "application/x-www-form-urlencoded") :
    (∀ pd, Saz.parsePostData headers body = .ok (some pd) →
      pd.text = none ∧ pd.mimeType = "application/x-www-form-urlencoded" ∧
      ∃ ps, pd.params = some ps ∧
        (strSplitOn '&' (utf8Decode body)).mapM Saz.parseFormPair = .ok ps) ∧
    (Saz.parsePostData headers body = .error () ↔
      ∃ pair ∈ strSplitOn '&' (utf8Decode body),
        Saz.parseFormPair pair = .error ()) ∧
    (∀ pair, (Saz.parseFormPair pair).isOk =
      ((decodeURIComponentE ((strSplitOn '=' pair).getD 0 "")).isOk &&
       (decodeURIComponentE ((strSplitOn '=' pair).getD 1 "")).isOk)) := by
  have hbe : body.isEmpty = false := by
    cases body with
    | nil => exact absurd rfl hne
    | cons b bs => rfl
  have hpp : Saz.parsePostData headers body =
      ((strSplitOn '&' (utf8Decode body)).mapM Saz.parseFormPair).map
        (fun params => some { mimeType := "application/x-www-form-urlencoded",
                              params := some params }) := by
    unfold Saz.parsePostData
    rw [hbe, hmime]
    rfl
  refine ⟨?_, ?_, parseFormPair_isOk⟩
  · intro pd hpd
    rw [hpp] at hpd
    cases hm : (strSplitOn '&' (utf8Decode body)).mapM Saz.parseFormPair with
    | error u =>
      rw [hm] at hpd
      exact Except.noConfusion hpd
    | ok ps =>
      rw [hm] at hpd
      have := Except.ok.inj hpd
      have hpd2 := Option.some.inj this
      subst hpd2
      exact ⟨rfl, rfl, ps, rfl, rfl⟩
  · rw [hpp]
    rw [← mapM_except_error Saz.parseFormPair (strSplitOn '&' (utf8Decode body))]
    cases hm : (strSplitOn '&' (utf8Decode body)).mapM Saz.parseFormPair with
    | error u =>
      cases u
      simp [Except.map]
    | ok ps =>
      simp [Except.map]

/-- Witness for C9: the characterization applied to a two-token body with
one percent-encoded space. -/
theorem urlencoded_params_characterization_witness :
    (∀ pd, Saz.parsePostData formHeaders (asciiBytes "a=1&b=%20") = .ok (some pd) →
      pd.text = none ∧ pd.mimeType = "application/x-www-form-urlencoded" ∧
      ∃ ps, pd.params = some ps ∧
        (strSplitOn '&' (utf8Decode (asciiBytes "a=1&b=%20"))).mapM
          Saz.parseFormPair = .ok ps) ∧
    (Saz.parsePostData formHeaders (asciiBytes "a=1&b=%20") = .error () ↔
      ∃ pair ∈ strSplitOn '&' (utf8Decode (asciiBytes "a=1&b=%20")),
        Saz.parseFormPair pair = .error ()) ∧
    (∀ pair, (Saz.parseFormPair pair).isOk =
      ((decodeURIComponentE ((strSplitOn '=' pair).getD 0 "")).isOk &&
       (decodeURIComponentE ((strSplitOn '=' pair).getD 1 "")).isOk)) :=
  urlencoded_params_characterization formHeaders (asciiBytes "a=1&b=%20")
    (by decide) (by decide)

/-! ## Claim C7: the assembler emits entries for fully-parsed pairs -/

theorem insertPos_sorted (n : Nat) :
    ∀ l, List.Sorted (· < ·) l →
      List.Sorted (· < ·) (Saz.insertPos n l) ∧
      ∀ m, m ∈ Saz.insertPos n l ↔ m = n ∨ m ∈ l := by
  intro l
  induction l with
  | nil =>
    intro _
    constructor
    · simp [Saz.insertPos]
    · intro m; simp [Saz.insertPos]
  | cons a t ih =>
    intro hs
    rw [List.sorted_cons] at hs
    obtain ⟨ha, ht⟩ := hs
    obtain ⟨ih1, ih2⟩ := ih ht
    by_cases h1 : n < a
    · simp only [Saz.insertPos, if_pos h1]
      constructor
      · rw [List.sorted_cons]
        refine ⟨?_, List.sorted_cons.mpr ⟨ha, ht⟩⟩
        intro b hb
        rcases List.mem_cons.mp hb with hba | hb2
        · subst hba; exact h1
        · exact Nat.lt_trans h1 (ha b hb2)
      · intro m; simp [List.mem_cons]
    · by_cases h2 : n = a
      · simp only [Saz.insertPos, if_neg h1, if_pos h2]
        constructor
        · exact List.sorted_cons.mpr ⟨ha, ht⟩
        · intro m; subst h2; simp [List.mem_cons]
      · simp only [Saz.insertPos, if_neg h1, if_neg h2]
        constructor
        · rw [List.sorted_cons]
          refine ⟨?_, ih1⟩
          intro b hb
          rcases (ih2 b).mp hb with hbn | hbt
          · subst hbn; omega
          · exact ha b hbt
        · intro m
          rw [List.mem_cons, List.mem_cons, ih2]
          tauto

/-- The distinct sequence numbers are strictly ascending, as JS object
iteration over array-index keys guarantees. -/
theorem positionsOf_sorted (sazData : List Saz.SazFileData) :
    List.Sorted (· < ·) (Saz.positionsOf sazData) := by
  have main : ∀ (ps : List Nat) (acc : List Nat), List.Sorted (· < ·) acc →
      List.Sorted (· < ·) (ps.foldl (fun a p => Saz.insertPos p a) acc) := by
    intro ps
    induction ps with
    | nil => intro acc h; exact h
    | cons p t ihp =>
      intro acc h
      exact ihp (Saz.insertPos p acc) (insertPos_sorted p acc h).1
  exact main _ [] (by simp)

/-- A successful fold of the assembler loop extends the accumulator by
exactly the entries of the fully-parsed transactions, in position order. -/
theorem foldlM_convertStep (sazData : List Saz.SazFileData) :
    ∀ (ps : List Nat) (acc res : List Saz.HarEntry),
      List.foldlM (Saz.convertStep sazData) acc ps = .ok res →
      res = acc ++ ps.filterMap (Saz.entryAt sazData) := by
  intro ps
  induction ps with
  | nil =>
    intro acc res h
    rw [List.foldlM_nil] at h
    have := Except.ok.inj h
    simp [this]
  | cons p t ih =>
    intro acc res h
    rw [List.foldlM_cons] at h
    cases hreq : Saz.parseHttpRequestE (Saz.mergeAt sazData p).request with
    | error u =>
      cases u
      have hstep : Saz.convertStep sazData acc p = .error () := by
        unfold Saz.convertStep
        rw [hreq]
        rfl
      rw [hstep] at h
      exact Except.noConfusion h
    | ok reqOpt =>
      cases reqOpt with
      | none =>
        have hstep : Saz.convertStep sazData acc p = .ok acc := by
          unfold Saz.convertStep
          rw [hreq]
          rfl
        have hea : Saz.entryAt sazData p = none := by
          unfold Saz.entryAt
          rw [hreq]
        rw [hstep] at h
        have h2 : List.foldlM (Saz.convertStep sazData) acc t = .ok res := h
        rw [List.filterMap_cons, hea]
        exact ih acc res h2
      | some req =>
        cases hresp : Saz.parseHttpResponseJs (Saz.mergeAt sazData p).response with
        | none =>
          have hstep : Saz.convertStep sazData acc p = .ok acc := by
            unfold Saz.convertStep
            rw [hreq, hresp]
            rfl
          have hea : Saz.entryAt sazData p = none := by
            unfold Saz.entryAt
            rw [hreq, hresp]
          rw [hstep] at h
          have h2 : List.foldlM (Saz.convertStep sazData) acc t = .ok res := h
          rw [List.filterMap_cons, hea]
          exact ih acc res h2
        | some resp =>
          have hstep : Saz.convertStep sazData acc p =
              .ok (acc ++ [Saz.HarEntry.mk req resp]) := by
            unfold Saz.convertStep
            rw [hreq, hresp]
            rfl
          have hea : Saz.entryAt sazData p = some (Saz.HarEntry.mk req resp) := by
            unfold Saz.entryAt
            rw [hreq, hresp]
          rw [hstep] at h
          have h2 : List.foldlM (Saz.convertStep sazData)
              (acc ++ [Saz.HarEntry.mk req resp]) t = .ok res := h
          rw [List.filterMap_cons, hea]
          rw [ih _ res h2, List.append_assoc]
          rfl

/-- A successful conversion emits exactly the archive document whose
entries are the fully-parsed transactions in ascending position order. -/
theorem convert_ok_characterization (sazData : List Saz.SazFileData)
    (har : Saz.HarFile) (h : Saz.convertSazDataToHar sazData = .ok har) :
    har = { log := { version := "1.2",
                     creatorName := "service-for-har-saz-converter",
                     creatorVersion := "1.0.0",
                     entries := (Saz.positionsOf sazData).filterMap
                       (Saz.entryAt sazData) } } := by
  unfold Saz.convertSazDataToHar at h
  cases hf : List.foldlM (Saz.convertStep sazData) [] (Saz.positionsOf sazData) with
  | error u =>
    cases u
    rw [hf] at h
    exact Except.noConfusion h
  | ok entries =>
    rw [hf] at h
    have hh := Except.ok.inj h
    have he := foldlM_convertStep sazData (Saz.positionsOf sazData) [] entries hf
    rw [← hh, he]
    rfl

/-- Claim C7 is false as stated: in a two-transaction set where sequence 1
parses on both halves and sequence 2's request-body parse throws, the
conversion aborts as a whole — sequence 2 is not silently excluded, and
sequence 1's entry is never emitted. -/
theorem convert_throw_aborts_cex :
    Saz.convertSazDataToHar sazThrowData = Except.error () ∧
    (Saz.entryAt sazThrowData 1).isSome = true :=
  ⟨rfl, rfl⟩

/-- Claim C7 (amended): when the conversion completes without a thrown
request parse, the emitted archive holds one entry per sequence number
exactly when both the request and the response of that transaction parsed,
in ascending sequence order; transactions missing either half or returning
a null parse are silently excluded. -/
theorem convert_emits_iff_both_parse (sazData : List Saz.SazFileData)
    (har : Saz.HarFile) (h : Saz.convertSazDataToHar sazData = .ok har) :
    har.log.entries = (Saz.positionsOf sazData).filterMap (Saz.entryAt sazData) ∧
    List.Sorted (· < ·) (Saz.positionsOf sazData) ∧
    (∀ pos req resp,
      Saz.parseHttpRequestE (Saz.mergeAt sazData pos).request = .ok (some req) →
      Saz.parseHttpResponseJs (Saz.mergeAt sazData pos).response = some resp →
      Saz.entryAt sazData pos = some (Saz.HarEntry.mk req resp)) ∧
    (∀ pos, (Saz.parseHttpRequestE (Saz.mergeAt sazData pos).request = .ok none ∨
        Saz.parseHttpResponseJs (Saz.mergeAt sazData pos).response = none) →
      Saz.entryAt sazData pos = none) := by
  refine ⟨?_, positionsOf_sorted sazData, ?_, ?_⟩
  · rw [convert_ok_characterization sazData har h]
  · intro pos req resp hr hs
    unfold Saz.entryAt
    rw [hr, hs]
  · intro pos hor
    unfold Saz.entryAt
    rcases hor with hr | hs
    · rw [hr]
    · rw [hs]
      cases Saz.parseHttpRequestE (Saz.mergeAt sazData pos).request with
      | error u => rfl
      | ok o => cases o <;> rfl

/-- Witness for C7: a request-only transaction yields a successful
conversion with an empty entries list, through the characterization
applied at that concrete input. -/
theorem convert_emits_iff_both_parse_witness :
    harEmpty.log.entries =
      (Saz.positionsOf sazReqOnly).filterMap (Saz.entryAt sazReqOnly) ∧
    List.Sorted (· < ·) (Saz.positionsOf sazReqOnly) ∧
    (∀ pos req resp,
      Saz.parseHttpRequestE (Saz.mergeAt sazReqOnly pos).request = .ok (some req) →
      Saz.parseHttpResponseJs (Saz.mergeAt sazReqOnly pos).response = some resp →
      Saz.entryAt sazReqOnly pos = some (Saz.HarEntry.mk req resp)) ∧
    (∀ pos, (Saz.parseHttpRequestE (Saz.mergeAt sazReqOnly pos).request = .ok none ∨
        Saz.parseHttpResponseJs (Saz.mergeAt sazReqOnly pos).response = none) →
      Saz.entryAt sazReqOnly pos = none) :=
  convert_emits_iff_both_parse sazReqOnly harEmpty rfl

/-! ## Claim C6: zero valid entries and conversion failure -/

/-- Claim C6 is false as stated: a bundle whose single transaction lacks
its response — zero valid entries — does not fail as a whole; the
conversion succeeds and an archive document with an empty entries list is
written. -/
theorem convert_zero_entries_cex :
    Saz.convertSazToHar (some zeroEntryBundle) = Except.ok harEmpty :=
  rfl

/-- Claim C6 (amended): a bundle that cannot be unpacked fails as a whole
with no archive written, and an archive document is emitted exactly when
the operation succeeds; but a transaction set yielding zero valid entries
is not a failure — whenever nothing throws, the conversion succeeds and
writes an archive document whose entries list is empty. -/
theorem convert_zero_entries_succeeds (files : List (String × Bytes))
    (hzero : ∀ pos ∈ Saz.positionsOf
        (files.filterMap fun f => Saz.parseSazFile f.1 f.2),
      Saz.entryAt (files.filterMap fun f => Saz.parseSazFile f.1 f.2) pos = none)
    (hok : (Saz.convertSazToHar (some files)).isOk = true) :
    Saz.convertSazToHar none = Except.error () ∧
    Saz.convertSazToHar (some files) = Except.ok harEmpty := by
  refine ⟨rfl, ?_⟩
  cases hc : Saz.convertSazToHar (some files) with
  | error u =>
    rw [hc] at hok
    exact Bool.noConfusion hok
  | ok har =>
    have hconv : Saz.convertSazDataToHar
        (files.filterMap fun f => Saz.parseSazFile f.1 f.2) = .ok har := hc
    have hchar := convert_ok_characterization _ har hconv
    have hnil : (Saz.positionsOf
        (files.filterMap fun f => Saz.parseSazFile f.1 f.2)).filterMap
        (Saz.entryAt (files.filterMap fun f => Saz.parseSazFile f.1 f.2)) = [] :=
      List.filterMap_eq_nil_iff.mpr hzero
    rw [hchar, hnil]
    rfl

/-- Witness for C6: a bundle with two half-missing transactions — the
conversion succeeds with the empty archive. -/
theorem convert_zero_entries_succeeds_witness :
    Saz.convertSazToHar none = Except.error () ∧
    Saz.convertSazToHar (some halfBundle) = Except.ok harEmpty :=
  convert_zero_entries_succeeds halfBundle (by decide) (by decide)

end HarReplay
